import Mathlib

/-!
Shallow embedding of the verdict-protocol escrow system
(canonical JSON, hashing, receipt chains, Merkle anchoring, the evidence,
judge and reputation services), with theorems checking the specification
against the embedded code.

Cryptographic primitives (keccak-256, ECDSA recovery, EIP-55 checksumming)
are abstracted as function parameters; everything else is translated
directly from the Python sources.
-/

namespace VerdictProtocol

/-! ## Python string ordering (code-point lexicographic, as used by `sorted`) -/

/-- Strict lexicographic order on char lists by code point, as Python compares strings. -/
def strLtChars : List Char → List Char → Bool
  | [], [] => false
  | [], _ :: _ => true
  | _ :: _, [] => false
  | a :: as, b :: bs =>
    if a.toNat < b.toNat then true
    else if b.toNat < a.toNat then false
    else strLtChars as bs

/-- Python string `<=`: the negation of the reversed strict order. -/
def strPyLe (a b : String) : Bool := !(strLtChars b.data a.data)

theorem strLtChars_irrefl : ∀ l : List Char, strLtChars l l = false := by
  intro l
  induction l with
  | nil => rfl
  | cons a as ih => simp [strLtChars, ih]

theorem strLtChars_asymm :
    ∀ l1 l2 : List Char, strLtChars l1 l2 = true → strLtChars l2 l1 = false := by
  intro l1
  induction l1 with
  | nil =>
    intro l2 h
    cases l2 with
    | nil => simp [strLtChars] at h
    | cons b bs => simp [strLtChars]
  | cons a as ih =>
    intro l2 h
    cases l2 with
    | nil => simp [strLtChars] at h
    | cons b bs =>
      simp only [strLtChars] at h ⊢
      by_cases hab : a.toNat < b.toNat
      · have hba : ¬ b.toNat < a.toNat := lt_asymm hab
        simp [hab, hba]
      · by_cases hba : b.toNat < a.toNat
        · simp [hab, hba] at h
        · simp only [hab, hba, if_false, if_neg] at h ⊢
          simp [ih bs h]

theorem strLtChars_trans :
    ∀ l1 l2 l3 : List Char,
      strLtChars l1 l2 = true → strLtChars l2 l3 = true → strLtChars l1 l3 = true := by
  intro l1
  induction l1 with
  | nil =>
    intro l2 l3 h12 h23
    cases l3 with
    | nil =>
      cases l2 with
      | nil => exact h12
      | cons b bs => simp [strLtChars] at h23
    | cons c cs => simp [strLtChars]
  | cons a as ih =>
    intro l2 l3 h12 h23
    cases l2 with
    | nil => simp [strLtChars] at h12
    | cons b bs =>
      cases l3 with
      | nil => simp [strLtChars] at h23
      | cons c cs =>
        simp only [strLtChars] at h12 h23 ⊢
        by_cases hab : a.toNat < b.toNat
        · by_cases hbc : b.toNat < c.toNat
          · have : a.toNat < c.toNat := lt_trans hab hbc
            simp [this]
          · by_cases hcb : c.toNat < b.toNat
            · simp [hab, hbc, hcb] at h23
            · have hbceq : b.toNat = c.toNat := le_antisymm (not_lt.mp hcb) (not_lt.mp hbc)
              have : a.toNat < c.toNat := hbceq ▸ hab
              simp [this]
        · by_cases hba : b.toNat < a.toNat
          · simp [hab, hba] at h12
          · have habeq : a.toNat = b.toNat := le_antisymm (not_lt.mp hba) (not_lt.mp hab)
            by_cases hbc : b.toNat < c.toNat
            · have : a.toNat < c.toNat := habeq ▸ hbc
              simp [this]
            · by_cases hcb : c.toNat < b.toNat
              · simp [hbc, hcb] at h23
              · simp only [hbc, hcb, if_false, if_neg] at h23
                have hAc : ¬ a.toNat < c.toNat := by
                  rw [habeq]; exact hbc
                have hcA : ¬ c.toNat < a.toNat := by
                  rw [habeq]; exact hcb
                simp only [hAc, hcA, if_false, if_neg]
                simp [ih bs cs (by simpa [hab, hba] using h12) h23]

theorem strLtChars_connex :
    ∀ l1 l2 : List Char, strLtChars l1 l2 = false → strLtChars l2 l1 = false → l1 = l2 := by
  intro l1
  induction l1 with
  | nil =>
    intro l2 h12 h21
    cases l2 with
    | nil => rfl
    | cons b bs => simp [strLtChars] at h12
  | cons a as ih =>
    intro l2 h12 h21
    cases l2 with
    | nil => simp [strLtChars] at h21
    | cons b bs =>
      simp only [strLtChars] at h12 h21
      by_cases hab : a.toNat < b.toNat
      · simp [hab] at h12
      · by_cases hba : b.toNat < a.toNat
        · simp [hab, hba] at h21
        · have habeq : a.toNat = b.toNat := le_antisymm (not_lt.mp hba) (not_lt.mp hab)
          have : a = b := Char.ext (UInt32.toNat.inj habeq)
          subst this
          simp only [hab, hba, if_false, if_neg] at h12 h21
          have := ih bs (by simpa [hab] using h12) (by simpa [hab] using h21)
          rw [this]

theorem strPyLe_total (a b : String) : strPyLe a b = true ∨ strPyLe b a = true := by
  unfold strPyLe
  by_cases h : strLtChars b.data a.data = true
  · right
    simp [strLtChars_asymm _ _ h]
  · left
    simp [Bool.not_eq_true] at h
    simp [h]

theorem strPyLe_trans {a b c : String} :
    strPyLe a b = true → strPyLe b c = true → strPyLe a c = true := by
  unfold strPyLe
  intro h1 h2
  simp only [Bool.not_eq_true'] at h1 h2 ⊢
  by_contra hcon
  simp only [Bool.not_eq_false] at hcon
  by_cases hab : strLtChars a.data b.data = true
  · have := strLtChars_trans _ _ _ hcon hab
    rw [this] at h2; cases h2
  · simp only [Bool.not_eq_true] at hab
    have heq := strLtChars_connex _ _ hab h1
    rw [heq] at hcon
    rw [hcon] at h2; cases h2

theorem strPyLe_antisymm {a b : String} :
    strPyLe a b = true → strPyLe b a = true → a = b := by
  unfold strPyLe
  intro h1 h2
  simp only [Bool.not_eq_true'] at h1 h2
  have := strLtChars_connex _ _ h2 h1
  exact String.ext this

/-! ## The JSON value domain

Python values flowing through `canonical_json._normalize`: `None`, booleans,
strings, ints, floats (modeled as rationals, which carry exactly the
`is_integer` / `int(·)` structure the code inspects), lists and dicts
(modeled as association lists in insertion order). -/

inductive Jv where
  | null : Jv
  | bool : Bool → Jv
  | str : String → Jv
  | int : Int → Jv
  | float : ℚ → Jv
  | arr : List Jv → Jv
  | obj : List (String × Jv) → Jv
deriving Repr

/-- Key order used by `sorted(value)` on dict keys. -/
def kvLe (a b : String × Jv) : Prop := strPyLe a.1 b.1 = true

instance : DecidableRel kvLe := fun a b => by unfold kvLe; infer_instance

instance : IsTotal (String × Jv) kvLe :=
  ⟨fun a b => strPyLe_total a.1 b.1⟩

instance : IsTrans (String × Jv) kvLe :=
  ⟨fun _ _ _ h1 h2 => strPyLe_trans h1 h2⟩

/-- Python `sorted(value)` over the keys of a dict, keeping each key with its value. -/
def sortKvs (kvs : List (String × Jv)) : List (String × Jv) :=
  List.insertionSort kvLe kvs

theorem sizeOf_perm_eq : ∀ {l1 l2 : List (String × Jv)}, l1.Perm l2 → sizeOf l1 = sizeOf l2 := by
  intro l1 l2 h
  induction h with
  | nil => rfl
  | cons x _ ih => simp [ih]
  | swap x y l => simp; omega
  | trans _ _ ih1 ih2 => omega

theorem sizeOf_sortKvs (kvs : List (String × Jv)) : sizeOf (sortKvs kvs) = sizeOf kvs :=
  sizeOf_perm_eq (List.perm_insertionSort kvLe kvs)

/-! ## canonical_json._normalize -/

mutual

/-- Function `_normalize` from `canonical_json.py`: sort dict keys recursively, keep
array order, turn integral floats into ints, leave scalars alone. -/
def normalize : Jv → Jv
  | .obj kvs => .obj (normalizeKvs (sortKvs kvs))
  | .arr vs => .arr (normalizeList vs)
  | .float q => if q.den = 1 then .int q.num else .float q
  | .null => .null
  | .bool b => .bool b
  | .str s => .str s
  | .int n => .int n
termination_by v => sizeOf v
decreasing_by
  · simp [sizeOf_sortKvs]
  · simp

def normalizeList : List Jv → List Jv
  | [] => []
  | v :: vs => normalize v :: normalizeList vs
termination_by vs => sizeOf vs
decreasing_by
  · simp; omega
  · simp

def normalizeKvs : List (String × Jv) → List (String × Jv)
  | [] => []
  | kv :: kvs => (kv.1, normalize kv.2) :: normalizeKvs kvs
termination_by kvs => sizeOf kvs
decreasing_by
  · cases kv; simp; omega
  · simp

end

theorem normalizeList_eq_map (vs : List Jv) : normalizeList vs = vs.map normalize := by
  induction vs with
  | nil => simp [normalizeList]
  | cons v vs ih => simp [normalizeList, ih]

theorem normalizeKvs_eq_map (kvs : List (String × Jv)) :
    normalizeKvs kvs = kvs.map (fun kv => (kv.1, normalize kv.2)) := by
  induction kvs with
  | nil => simp [normalizeKvs]
  | cons kv kvs ih => simp [normalizeKvs, ih]

/-- Strong induction principle for `Jv` exposing membership in the nested lists. -/
theorem Jv.inductionOn (P : Jv → Prop)
    (hnull : P .null) (hbool : ∀ b, P (.bool b)) (hstr : ∀ s, P (.str s))
    (hint : ∀ n, P (.int n)) (hfloat : ∀ q, P (.float q))
    (harr : ∀ vs, (∀ v ∈ vs, P v) → P (.arr vs))
    (hobj : ∀ kvs, (∀ kv ∈ kvs, P kv.2) → P (.obj kvs)) :
    ∀ v, P v := by
  have key : ∀ n (v : Jv), sizeOf v ≤ n → P v := by
    intro n
    induction n with
    | zero =>
      intro v hv
      cases v <;> simp at hv
    | succ n ih =>
      intro v hv
      cases v with
      | null => exact hnull
      | bool b => exact hbool b
      | str s => exact hstr s
      | int m => exact hint m
      | float q => exact hfloat q
      | arr vs =>
        refine harr vs (fun x hx => ih x ?_)
        have hlt := List.sizeOf_lt_of_mem hx
        simp at hv
        omega
      | obj kvs =>
        refine hobj kvs (fun kv hkv => ih kv.2 ?_)
        have hlt := List.sizeOf_lt_of_mem hkv
        have hkvsz : sizeOf kv = 1 + sizeOf kv.1 + sizeOf kv.2 := by
          cases kv; simp
        simp at hv
        omega
  exact fun v => key (sizeOf v) v (le_refl _)

/-! ## JSON serialization (json.dumps with sort_keys=True, compact separators,
ensure_ascii=False), and the canonical JSON entry points -/

/-- Four lowercase hex digits, for backslash-u escapes. -/
def hex4 (n : Nat) : String :=
  String.mk [Nat.digitChar (n / 4096 % 16), Nat.digitChar (n / 256 % 16),
    Nat.digitChar (n / 16 % 16), Nat.digitChar (n % 16)]

/-- JSON string escaping as json.dumps performs it with ensure_ascii=False. -/
def escapeChar (c : Char) : String :=
  if c = Char.ofNat 34 then "\\\""
  else if c = Char.ofNat 92 then "\\\\"
  else if c = Char.ofNat 10 then "\\n"
  else if c = Char.ofNat 13 then "\\r"
  else if c = Char.ofNat 9 then "\\t"
  else if c = Char.ofNat 8 then "\\b"
  else if c = Char.ofNat 12 then "\\f"
  else if c.toNat < 32 then "\\u" ++ hex4 c.toNat
  else String.singleton c

def renderString (s : String) : String :=
  "\"" ++ String.join (s.data.map escapeChar) ++ "\""

section Dumps

variable (floatRepr : ℚ → String)

mutual

/-- Python `json.dumps(·, sort_keys=True, separators=(",", ":"), ensure_ascii=False)`
on normalized values; the rendering of non-integral floats is the abstract
parameter `floatRepr` (Python float repr). -/
def dumps : Jv → String
  | .null => "null"
  | .bool b => if b then "true" else "false"
  | .str s => renderString s
  | .int n => toString n
  | .float q => floatRepr q
  | .arr vs => "[" ++ String.intercalate "," (dumpsList vs) ++ "]"
  | .obj kvs => "\x7b" ++ String.intercalate "," (dumpsKvs (sortKvs kvs)) ++ "\x7d"
termination_by v => sizeOf v
decreasing_by
  · simp
  · simp [sizeOf_sortKvs]

def dumpsList : List Jv → List String
  | [] => []
  | v :: vs => dumps v :: dumpsList vs
termination_by vs => sizeOf vs
decreasing_by
  · simp; omega
  · simp

def dumpsKvs : List (String × Jv) → List String
  | [] => []
  | kv :: kvs => (renderString kv.1 ++ ":" ++ dumps kv.2) :: dumpsKvs kvs
termination_by kvs => sizeOf kvs
decreasing_by
  · cases kv; simp; omega
  · simp

end

end Dumps

/-- Function `canonical_json_obj` from `canonical_json.py`. -/
def canonical_json_obj (v : Jv) : Jv := normalize v

/-- Function `canonical_json_dumps` from `canonical_json.py`. -/
def canonical_json_dumps (floatRepr : ℚ → String) (v : Jv) : String :=
  dumps floatRepr (canonical_json_obj v)

/-- Function `canonical_json_bytes`: the UTF-8 bytes of the canonical string, kept as the
string itself (UTF-8 encoding is injective on strings). -/
def canonical_json_bytes (floatRepr : ℚ → String) (v : Jv) : String :=
  canonical_json_dumps floatRepr v

/-- Function `hash_canonical` from `hashing.py`; `keccakStr` stands for
`keccak_hex ∘ utf8` applied to the canonical string. -/
def hash_canonical (keccakStr : String → String) (floatRepr : ℚ → String) (v : Jv) : String :=
  keccakStr (canonical_json_bytes floatRepr v)

/-- Function `_without_fields` from `hashing.py` (drops the listed keys of a dict). -/
def without_fields (v : Jv) (skip : List String) : Jv :=
  match v with
  | .obj kvs => .obj (kvs.filter (fun kv => !(skip.contains kv.1)))
  | v => v

/-! ## Idempotence and key-order stability of normalization -/

theorem normalize_obj_eq (kvs : List (String × Jv)) :
    normalize (.obj kvs) = .obj ((sortKvs kvs).map (fun kv => (kv.1, normalize kv.2))) := by
  rw [normalize, normalizeKvs_eq_map]

theorem normalize_arr_eq (vs : List Jv) :
    normalize (.arr vs) = .arr (vs.map normalize) := by
  rw [normalize, normalizeList_eq_map]

/-- The strict key order on key-value pairs (used to show that sorted nodup-key
lists are unique up to permutation). -/
def kvLt (a b : String × Jv) : Prop := kvLe a b ∧ a.1 ≠ b.1

instance : IsAntisymm (String × Jv) kvLt :=
  ⟨fun _ _ h1 h2 => absurd (strPyLe_antisymm h1.1 h2.1) h1.2⟩

theorem sortKvs_sorted (kvs : List (String × Jv)) : List.Sorted kvLe (sortKvs kvs) :=
  List.sorted_insertionSort kvLe kvs

theorem sortKvs_perm (kvs : List (String × Jv)) : (sortKvs kvs).Perm kvs :=
  List.perm_insertionSort kvLe kvs

theorem sortKvs_of_sorted {kvs : List (String × Jv)} (h : List.Sorted kvLe kvs) :
    sortKvs kvs = kvs :=
  List.Sorted.insertionSort_eq h

theorem sortKvs_eq_of_perm {kvs1 kvs2 : List (String × Jv)}
    (hperm : kvs1.Perm kvs2) (hnd : (kvs1.map Prod.fst).Nodup) :
    sortKvs kvs1 = sortKvs kvs2 := by
  have hp : (sortKvs kvs1).Perm (sortKvs kvs2) :=
    ((sortKvs_perm kvs1).trans hperm).trans (sortKvs_perm kvs2).symm
  have hnd1 : ((sortKvs kvs1).map Prod.fst).Nodup :=
    (((sortKvs_perm kvs1).map Prod.fst).nodup_iff).mpr hnd
  have hnd2 : ((sortKvs kvs2).map Prod.fst).Nodup := by
    refine (((sortKvs_perm kvs2).map Prod.fst).nodup_iff).mpr ?_
    exact ((hperm.map Prod.fst).nodup_iff).mp hnd
  have hs1 : List.Sorted kvLt (sortKvs kvs1) := by
    have hne : (sortKvs kvs1).Pairwise (fun a b => a.1 ≠ b.1) :=
      (List.pairwise_map).mp hnd1
    exact (sortKvs_sorted kvs1).and hne
  have hs2 : List.Sorted kvLt (sortKvs kvs2) := by
    have hne : (sortKvs kvs2).Pairwise (fun a b => a.1 ≠ b.1) :=
      (List.pairwise_map).mp hnd2
    exact (sortKvs_sorted kvs2).and hne
  exact List.eq_of_perm_of_sorted hp hs1 hs2

theorem normalize_idem : ∀ v : Jv, normalize (normalize v) = normalize v := by
  intro v
  induction v using Jv.inductionOn with
  | hnull => simp [normalize]
  | hbool b => simp [normalize]
  | hstr s => simp [normalize]
  | hint n => simp [normalize]
  | hfloat q =>
    by_cases h : q.den = 1
    · simp [normalize, h]
    · simp [normalize, h]
  | harr vs ih =>
    rw [normalize_arr_eq, normalize_arr_eq, List.map_map]
    congr 1
    exact List.map_congr_left (fun v hv => ih v hv)
  | hobj kvs ih =>
    rw [normalize_obj_eq, normalize_obj_eq]
    congr 1
    have hsorted : List.Sorted kvLe ((sortKvs kvs).map (fun kv => (kv.1, normalize kv.2))) := by
      refine List.Pairwise.map _ ?_ (sortKvs_sorted kvs)
      intro a b hab
      exact hab
    rw [sortKvs_of_sorted hsorted, List.map_map]
    refine List.map_congr_left ?_
    intro kv hkv
    have hmem : kv ∈ kvs := (sortKvs_perm kvs).mem_iff.mp hkv
    simp [ih kv hmem]

theorem normalize_obj_perm {kvs1 kvs2 : List (String × Jv)}
    (hperm : kvs1.Perm kvs2) (hnd : (kvs1.map Prod.fst).Nodup) :
    normalize (.obj kvs1) = normalize (.obj kvs2) := by
  rw [normalize_obj_eq, normalize_obj_eq, sortKvs_eq_of_perm hperm hnd]

/-- C3: canonical JSON normalization is idempotent on every JSON-compatible
value (so serializing twice equals serializing once), canonical serialization
of two dicts differing only in key insertion order is identical, and an
integral float serializes to the same canonical bytes and hash as the
corresponding integer (5.0 vs 5). -/
theorem C3_canonical_json_idempotent_stable :
    (∀ v : Jv, canonical_json_obj (canonical_json_obj v) = canonical_json_obj v)
    ∧ (∀ (floatRepr : ℚ → String) (v : Jv),
        canonical_json_dumps floatRepr (canonical_json_obj v) = canonical_json_dumps floatRepr v)
    ∧ (∀ (floatRepr : ℚ → String) (kvs1 kvs2 : List (String × Jv)),
        kvs1.Perm kvs2 → (kvs1.map Prod.fst).Nodup →
        canonical_json_dumps floatRepr (.obj kvs1) = canonical_json_dumps floatRepr (.obj kvs2))
    ∧ (∀ (keccakStr : String → String) (floatRepr : ℚ → String) (n : Int),
        canonical_json_bytes floatRepr (.float (n : ℚ)) = canonical_json_bytes floatRepr (.int n)
        ∧ hash_canonical keccakStr floatRepr (.float (n : ℚ))
            = hash_canonical keccakStr floatRepr (.int n)) := by
  have hfloat : ∀ n : Int, normalize (.float (n : ℚ)) = normalize (.int n) := by
    intro n
    have hden : ((n : ℚ)).den = 1 := Rat.den_intCast n
    have hnum : ((n : ℚ)).num = n := Rat.num_intCast n
    simp [normalize, hden, hnum]
  refine ⟨normalize_idem, ?_, ?_, ?_⟩
  · intro floatRepr v
    unfold canonical_json_dumps canonical_json_obj
    exact congrArg (dumps floatRepr) (normalize_idem v)
  · intro floatRepr kvs1 kvs2 hperm hnd
    unfold canonical_json_dumps canonical_json_obj
    exact congrArg (dumps floatRepr) (normalize_obj_perm hperm hnd)
  · intro keccakStr floatRepr n
    constructor
    · unfold canonical_json_bytes canonical_json_dumps canonical_json_obj
      exact congrArg (dumps floatRepr) (hfloat n)
    · unfold hash_canonical canonical_json_bytes canonical_json_dumps canonical_json_obj
      exact congrArg (fun s => keccakStr (dumps floatRepr s)) (hfloat n)

/-- Witness for C3: a concrete two-key dict and its reordering yield the same
canonical serialization. -/
theorem C3_canonical_json_idempotent_stable_witness :
    ([(("b" : String), Jv.int 1), ("a", Jv.int 2)].Perm [("a", Jv.int 2), ("b", Jv.int 1)]
      ∧ ([(("b" : String), Jv.int 1), ("a", Jv.int 2)].map Prod.fst).Nodup)
    ∧ canonical_json_dumps (fun _ => "") (.obj [("b", .int 1), ("a", .int 2)])
        = canonical_json_dumps (fun _ => "") (.obj [("a", .int 2), ("b", .int 1)]) := by
  have hperm : [(("b" : String), Jv.int 1), ("a", Jv.int 2)].Perm
      [("a", Jv.int 2), ("b", Jv.int 1)] :=
    List.Perm.swap ("a", Jv.int 2) ("b", Jv.int 1) []
  have hnd : ([(("b" : String), Jv.int 1), ("a", Jv.int 2)].map Prod.fst).Nodup := by
    decide
  exact ⟨⟨hperm, hnd⟩,
    C3_canonical_json_idempotent_stable.2.2.1 (fun _ => "") _ _ hperm hnd⟩

/-! ## Hex codecs and the Merkle root (`merkle_root_hash` from `hashing.py`)

`bytes.fromhex` / `eth_utils.to_hex` are embedded on char lists; keccak-256 on
raw bytes is the abstract parameter `keccakB`. -/

/-- The value of one hex digit, as `bytes.fromhex` reads it. -/
def hexDigitVal (c : Char) : Option Nat :=
  match c with
  | Char.ofNat 48 => some 0
  | Char.ofNat 49 => some 1
  | Char.ofNat 50 => some 2
  | Char.ofNat 51 => some 3
  | Char.ofNat 52 => some 4
  | Char.ofNat 53 => some 5
  | Char.ofNat 54 => some 6
  | Char.ofNat 55 => some 7
  | Char.ofNat 56 => some 8
  | Char.ofNat 57 => some 9
  | Char.ofNat 97 => some 10
  | Char.ofNat 98 => some 11
  | Char.ofNat 99 => some 12
  | Char.ofNat 100 => some 13
  | Char.ofNat 101 => some 14
  | Char.ofNat 102 => some 15
  | Char.ofNat 65 => some 10
  | Char.ofNat 66 => some 11
  | Char.ofNat 67 => some 12
  | Char.ofNat 68 => some 13
  | Char.ofNat 69 => some 14
  | Char.ofNat 70 => some 15
  | _ => none

/-- Python `bytes.fromhex` on a char list; `none` models the raised `ValueError`. -/
def hexDecodeChars : List Char → Option (List Nat)
  | [] => some []
  | [_] => none
  | c1 :: c2 :: rest =>
    match hexDigitVal c1, hexDigitVal c2, hexDecodeChars rest with
    | some hi, some lo, some bs => some ((16 * hi + lo) :: bs)
    | _, _, _ => none

/-- Two lowercase hex digits of a byte, as `to_hex` renders each byte. -/
def byteToHex (n : Nat) : List Char :=
  [Nat.digitChar (n / 16 % 16), Nat.digitChar (n % 16)]

/-- Function `eth_utils.to_hex` of a byte string. -/
def hexEncode (bs : List Nat) : String :=
  String.mk (Char.ofNat 48 :: Char.ofNat 120 :: (bs.map byteToHex).flatten)

/-- The expression `v[2:] if v.startswith("0x") else v`, on the char list of `v`. -/
def strip0x (s : String) : List Char :=
  match s.data with
  | Char.ofNat 48 :: Char.ofNat 120 :: rest => rest
  | l => l

/-- Sequence a list of optional values (a comprehension that may raise). -/
def optList {α : Type} : List (Option α) → Option (List α)
  | [] => some []
  | o :: os => o.bind (fun a => (optList os).map (fun as => a :: as))

/-- One level of the Merkle loop: hash adjacent pairs, duplicating the last
node when the node count is odd. -/
def pairStep (keccakB : List Nat → List Nat) : List (List Nat) → List (List Nat)
  | [] => []
  | [x] => [keccakB (x ++ x)]
  | x :: y :: rest => keccakB (x ++ y) :: pairStep keccakB rest

/-- The `while len(current_bytes) > 1` loop, with fuel bounded by the initial
node count (which always suffices, see `levelsGo_length_le_one`). -/
def levelsGo (keccakB : List Nat → List Nat) : Nat → List (List Nat) → List (List Nat)
  | 0, cur => cur
  | fuel + 1, cur =>
    if cur.length ≤ 1 then cur else levelsGo keccakB fuel (pairStep keccakB cur)

/-- Function `merkle_root_hash` from `hashing.py`; `none` models a decoding exception. -/
def merkle_root_hash (keccakB : List Nat → List Nat) (leaves : List String) : Option String :=
  match leaves with
  | [] => some "0x0"
  | _ =>
    (optList (leaves.map (fun v => hexDecodeChars (strip0x v)))).map
      (fun bss => hexEncode ((levelsGo keccakB bss.length bss).headD []))

theorem pairStep_length (keccakB : List Nat → List Nat) :
    ∀ l : List (List Nat), (pairStep keccakB l).length = (l.length + 1) / 2 := by
  intro l
  induction l using pairStep.induct keccakB with
  | case1 => simp [pairStep]
  | case2 x => simp [pairStep]
  | case3 x y rest ih => simp [pairStep, ih]; omega

/-- The fuel given to `levelsGo` always suffices: the loop exits with at most
one node, matching the termination of the source `while` loop. -/
theorem levelsGo_length_le_one (keccakB : List Nat → List Nat) :
    ∀ (fuel : Nat) (cur : List (List Nat)), cur.length ≤ fuel + 1 →
      (levelsGo keccakB fuel cur).length ≤ 1 := by
  intro fuel
  induction fuel with
  | zero =>
    intro cur h
    simpa [levelsGo] using h
  | succ f ih =>
    intro cur h
    by_cases hlen : cur.length ≤ 1
    · simp [levelsGo, hlen]
    · simp only [levelsGo, hlen, if_neg, if_false]
      refine ih _ ?_
      rw [pairStep_length]
      omega

theorem hexDigitVal_digitChar : ∀ m : Fin 16, hexDigitVal (Nat.digitChar m.val) = some m.val := by
  decide

theorem digitChar_inj16 : ∀ m n : Fin 16, Nat.digitChar m.val = Nat.digitChar n.val → m = n := by
  decide

theorem hexDecode_encode :
    ∀ bs : List Nat, (∀ v ∈ bs, v < 256) →
      hexDecodeChars ((bs.map byteToHex).flatten) = some bs := by
  intro bs
  induction bs with
  | nil => intro _; simp [hexDecodeChars]
  | cons b rest ih =>
    intro h
    have hb : b < 256 := h b (by simp)
    have hhi : hexDigitVal (Nat.digitChar (b / 16 % 16)) = some (b / 16 % 16) :=
      hexDigitVal_digitChar ⟨b / 16 % 16, Nat.mod_lt _ (by norm_num)⟩
    have hlo : hexDigitVal (Nat.digitChar (b % 16)) = some (b % 16) :=
      hexDigitVal_digitChar ⟨b % 16, Nat.mod_lt _ (by norm_num)⟩
    have hrest := ih (fun v hv => h v (by simp [hv]))
    have hbeq : 16 * (b / 16 % 16) + b % 16 = b := by omega
    simp only [List.map_cons, List.flatten_cons, byteToHex, List.cons_append,
      List.nil_append, hexDecodeChars, hhi, hlo, hrest, hbeq]
    simp [hrest, hbeq]

theorem hexEncode_inj {xs ys : List Nat}
    (hx : ∀ v ∈ xs, v < 256) (hy : ∀ v ∈ ys, v < 256)
    (h : hexEncode xs = hexEncode ys) : xs = ys := by
  unfold hexEncode at h
  injection h with h
  injection h with _ h
  injection h with _ h
  induction xs generalizing ys with
  | nil =>
    cases ys with
    | nil => rfl
    | cons y ys => simp [byteToHex] at h
  | cons x xs ih =>
    cases ys with
    | nil => simp [byteToHex] at h
    | cons y ys =>
      simp only [List.map_cons, List.flatten_cons, byteToHex, List.cons_append,
        List.nil_append, List.cons.injEq] at h
      obtain ⟨h1, h2, h3⟩ := h
      have hxv : x < 256 := hx x (by simp)
      have hyv : y < 256 := hy y (by simp)
      have e1 : x / 16 % 16 = y / 16 % 16 := by
        have := digitChar_inj16 ⟨x / 16 % 16, Nat.mod_lt _ (by norm_num)⟩
          ⟨y / 16 % 16, Nat.mod_lt _ (by norm_num)⟩ h1
        exact congrArg Fin.val this
      have e2 : x % 16 = y % 16 := by
        have := digitChar_inj16 ⟨x % 16, Nat.mod_lt _ (by norm_num)⟩
          ⟨y % 16, Nat.mod_lt _ (by norm_num)⟩ h2
        exact congrArg Fin.val this
      have hxy : x = y := by omega
      subst hxy
      have := ih (fun v hv => hx v (by simp [hv])) (fun v hv => hy v (by simp [hv])) h3
      rw [this]

theorem strip0x_hexEncode (bs : List Nat) :
    strip0x (hexEncode bs) = (bs.map byteToHex).flatten := by
  simp [strip0x, hexEncode]

theorem merkle_two (keccakB : List Nat → List Nat) (a b : List Nat)
    (ha : ∀ v ∈ a, v < 256) (hb : ∀ v ∈ b, v < 256) :
    merkle_root_hash keccakB [hexEncode a, hexEncode b]
      = some (hexEncode (keccakB (a ++ b))) := by
  simp [merkle_root_hash, optList, strip0x_hexEncode,
    hexDecode_encode a ha, hexDecode_encode b hb, levelsGo, pairStep]

/-- C2: the Merkle root of the empty list is the sentinel "0x0"; a single leaf
is returned as-is; an odd level duplicates its last node before pairing; and
the root is order-sensitive whenever keccak distinguishes the two
concatenation orders. -/
theorem C2_merkle_root_spec (keccakB : List Nat → List Nat) :
    (merkle_root_hash keccakB [] = some "0x0")
    ∧ (∀ bs : List Nat, (∀ v ∈ bs, v < 256) →
        merkle_root_hash keccakB [hexEncode bs] = some (hexEncode bs))
    ∧ (∀ a b c : List Nat,
        (∀ v ∈ a, v < 256) → (∀ v ∈ b, v < 256) → (∀ v ∈ c, v < 256) →
        merkle_root_hash keccakB [hexEncode a, hexEncode b, hexEncode c]
          = some (hexEncode (keccakB (keccakB (a ++ b) ++ keccakB (c ++ c)))))
    ∧ (∀ a b : List Nat, (∀ v ∈ a, v < 256) → (∀ v ∈ b, v < 256) →
        (∀ v ∈ keccakB (a ++ b), v < 256) → (∀ v ∈ keccakB (b ++ a), v < 256) →
        keccakB (a ++ b) ≠ keccakB (b ++ a) →
        merkle_root_hash keccakB [hexEncode a, hexEncode b]
          ≠ merkle_root_hash keccakB [hexEncode b, hexEncode a]) := by
  refine ⟨rfl, ?_, ?_, ?_⟩
  · intro bs h
    simp [merkle_root_hash, optList, strip0x_hexEncode, hexDecode_encode bs h, levelsGo]
  · intro a b c ha hb hc
    simp [merkle_root_hash, optList, strip0x_hexEncode,
      hexDecode_encode a ha, hexDecode_encode b hb, hexDecode_encode c hc,
      levelsGo, pairStep]
  · intro a b ha hb hkab hkba hne
    rw [merkle_two keccakB a b ha hb, merkle_two keccakB b a hb ha]
    intro h
    have h2 : hexEncode (keccakB (a ++ b)) = hexEncode (keccakB (b ++ a)) :=
      Option.some.inj h
    exact hne (hexEncode_inj hkab hkba h2)

/-- Witness for C2: a concrete singleton round-trip and a concrete
order-sensitive pair, with the identity as the stand-in hash. -/
theorem C2_merkle_root_spec_witness :
    ((∀ v ∈ [(171 : Nat)], v < 256)
      ∧ merkle_root_hash (fun x => x) [hexEncode [171]] = some (hexEncode [171]))
    ∧ (((fun (x : List Nat) => x) ([0] ++ [1]) ≠ (fun (x : List Nat) => x) ([1] ++ [0]))
      ∧ merkle_root_hash (fun x => x) [hexEncode [0], hexEncode [1]]
          ≠ merkle_root_hash (fun x => x) [hexEncode [1], hexEncode [0]]) := by
  refine ⟨⟨by decide, ?_⟩, ⟨by decide, ?_⟩⟩
  · exact (C2_merkle_root_spec (fun x => x)).2.1 [171] (by decide)
  · exact (C2_merkle_root_spec (fun x => x)).2.2.2 [0] [1]
      (by decide) (by decide) (by decide) (by decide) (by decide)

/-! ## Receipts, signatures and the receipt chain verifier

`recover` stands for raw ECDSA recovery over the EIP-191 personal message
(`None` models a raised exception); `checksum` stands for
`eth_utils.to_checksum_address` (`None` models its `ValueError`). -/

structure Receipt where
  schemaVersion : String
  receiptId : String
  chainId : Int
  contractAddress : String
  agreementId : String
  clauseHash : String
  sequence : Int
  eventType : String
  timestamp : Int
  actorId : String
  counterpartyId : String
  requestId : String
  payloadHash : String
  prevHash : String
  metadata : Jv
  receiptHash : String
  signature : String
deriving Repr

/-- The receipt as the JSON dict produced by `model_dump()` (declared field
order; canonicalization sorts keys anyway). -/
def Receipt.toJv (r : Receipt) : Jv :=
  .obj [("schemaVersion", .str r.schemaVersion), ("receiptId", .str r.receiptId),
    ("chainId", .int r.chainId), ("contractAddress", .str r.contractAddress),
    ("agreementId", .str r.agreementId), ("clauseHash", .str r.clauseHash),
    ("sequence", .int r.sequence), ("eventType", .str r.eventType),
    ("timestamp", .int r.timestamp), ("actorId", .str r.actorId),
    ("counterpartyId", .str r.counterpartyId), ("requestId", .str r.requestId),
    ("payloadHash", .str r.payloadHash), ("prevHash", .str r.prevHash),
    ("metadata", r.metadata), ("receiptHash", .str r.receiptHash),
    ("signature", .str r.signature)]

/-- Function `compute_receipt_hash` from `hashing.py`. -/
def compute_receipt_hash (keccakStr : String → String) (floatRepr : ℚ → String)
    (r : Receipt) : String :=
  hash_canonical keccakStr floatRepr (without_fields r.toJv ["receiptHash", "signature"])

/-- Kernel-evaluable `startswith` on char lists (pattern, then the string). -/
def startsWithChars : List Char → List Char → Bool
  | [], _ => true
  | _ :: _, [] => false
  | p :: ps, c :: cs => p == c && startsWithChars ps cs

/-- Kernel-evaluable `str.split(sep)` on char lists. -/
def splitOnCharList (sep : Char) : List Char → List (List Char)
  | [] => [[]]
  | c :: cs =>
    let rest := splitOnCharList sep cs
    if c == sep then [] :: rest
    else
      match rest with
      | [] => [[c]]
      | chunk :: chunks => (c :: chunk) :: chunks

/-- Function `did_to_address` from `signatures.py`: require the `did:8004:0x` form, take
the last `:`-separated component, replace its first two chars by `0x`, and
checksum it (`none` models either raised `ValueError`). -/
def did_to_address (checksum : String → Option String) (actorId : String) : Option String :=
  if startsWithChars ("did:8004:0x".data) actorId.data then
    checksum ("0x" ++ String.mk (((splitOnCharList ':' actorId.data).getLastD []).drop 2))
  else none

/-- Function `recover_signer_eip191` from `signatures.py`. -/
def recover_signer_eip191 (recover : String → String → Option String)
    (checksum : String → Option String) (digest sig : String) : Option String :=
  (recover digest sig).bind checksum

/-- Function `verify_signature_eip191` from `signatures.py` (`none` models an exception
from recovery or checksumming). -/
def verify_signature_eip191 (recover : String → String → Option String)
    (checksum : String → Option String) (digest sig expected : String) : Option Bool :=
  (recover_signer_eip191 recover checksum digest sig).bind
    (fun rec => (checksum expected).map (fun ce => rec == ce))

/-- The keyword arguments of `verify_receipt_chain` (all default `None`). -/
structure Expected where
  chainId : Option Int
  contractAddress : Option String
  agreementId : Option String
  clauseHash : Option String
deriving Repr, DecidableEq

def seqLeR (a b : Receipt) : Prop := a.sequence ≤ b.sequence

instance : DecidableRel seqLeR := fun a b => by unfold seqLeR; infer_instance

instance : IsTotal Receipt seqLeR := ⟨fun a b => le_total a.sequence b.sequence⟩

instance : IsTrans Receipt seqLeR := ⟨fun _ _ _ h1 h2 => le_trans h1 h2⟩

/-- Python `sorted(receipts, key=lambda r: r["sequence"])` (a stable sort). -/
def sortBySeq (receipts : List Receipt) : List Receipt :=
  List.insertionSort seqLeR receipts

structure ReceiptChainResult where
  ok : Bool
  errors : List String
deriving Repr, DecidableEq

/-- The errors the loop body of `verify_receipt_chain` appends for the receipt
at position `idx` of the sorted list. -/
def receiptErrors (keccakStr : String → String) (floatRepr : ℚ → String)
    (recover : String → String → Option String) (checksum : String → Option String)
    (exp : Expected) (ordered : List Receipt) (idx : Nat) (r : Receipt) : List String :=
  (if r.sequence ≠ (idx : Int) then
    ["sequence mismatch at index=" ++ toString idx ++ ": got " ++ toString r.sequence]
  else [])
  ++ (match exp.chainId with
      | some c =>
        if r.chainId ≠ c then ["receipt " ++ r.receiptId ++ " has wrong chainId"] else []
      | none => [])
  ++ (match exp.contractAddress with
      | some s =>
        if s ≠ "" ∧ r.contractAddress ≠ s then
          ["receipt " ++ r.receiptId ++ " has wrong contractAddress"]
        else []
      | none => [])
  ++ (match exp.agreementId with
      | some s =>
        if s ≠ "" ∧ r.agreementId ≠ s then
          ["receipt " ++ r.receiptId ++ " has wrong agreementId"]
        else []
      | none => [])
  ++ (match exp.clauseHash with
      | some s =>
        if s ≠ "" ∧ r.clauseHash ≠ s then
          ["receipt " ++ r.receiptId ++ " has wrong clauseHash"]
        else []
      | none => [])
  ++ (if compute_receipt_hash keccakStr floatRepr r ≠ r.receiptHash then
        ["receipt hash mismatch for " ++ r.receiptId]
      else [])
  ++ (if idx = 0 then
        (if r.prevHash ≠ "0x0" then ["first receipt prevHash must be 0x0"] else [])
      else
        (match ordered[idx - 1]? with
         | some prev =>
           if r.prevHash ≠ prev.receiptHash then
             ["prevHash mismatch for " ++ r.receiptId]
           else []
         | none => []))
  ++ (match did_to_address checksum r.actorId with
      | none => ["signature verification failed for " ++ r.receiptId ++ ": invalid did"]
      | some signer =>
        match verify_signature_eip191 recover checksum r.receiptHash r.signature signer with
        | none => ["signature verification failed for " ++ r.receiptId ++ ": exception"]
        | some ok => if ok then [] else ["signature mismatch for " ++ r.receiptId])

/-- Function `verify_receipt_chain` from `receipt_chain.py`. -/
def verify_receipt_chain (keccakStr : String → String) (floatRepr : ℚ → String)
    (recover : String → String → Option String) (checksum : String → Option String)
    (receipts : List Receipt) (exp : Expected) : ReceiptChainResult :=
  let ordered := sortBySeq receipts
  let errors := ordered.enum.flatMap
    (fun ir => receiptErrors keccakStr floatRepr recover checksum exp ordered ir.1 ir.2)
  ⟨errors.isEmpty, errors⟩

/-- C10: the empty receipt list verifies as a valid chain for every choice of
expected header values, so the first receipt of an agreement is checked at
POST /receipts as the one-element chain `[] ++ [r] = [r]`. -/
theorem C10_verify_empty_chain_ok (keccakStr : String → String) (floatRepr : ℚ → String)
    (recover : String → String → Option String) (checksum : String → Option String)
    (exp : Expected) :
    verify_receipt_chain keccakStr floatRepr recover checksum [] exp
      = ⟨true, []⟩
    ∧ ∀ r : Receipt,
        verify_receipt_chain keccakStr floatRepr recover checksum ([] ++ [r]) exp
          = verify_receipt_chain keccakStr floatRepr recover checksum [r] exp := by
  constructor
  · rfl
  · intro r
    rfl

/-! ## C1: verify_receipt_chain against the specified chain validity -/

/-- The claim's signature condition: the signature recovers to the
(checksummed) address embedded in `actorId`. -/
def SigSpecOk (recover : String → String → Option String)
    (checksum : String → Option String) (r : Receipt) : Prop :=
  ∃ a raw, did_to_address checksum r.actorId = some a
    ∧ recover r.receiptHash r.signature = some raw
    ∧ checksum raw = some a

/-- The claim's validity conditions for a receipt chain, stated over the
sequence-sorted list: sorted sequences are exactly 0..n-1, header fields equal
the expected values, each receipt hash is the recomputed hash, `prevHash`
links the chain starting from "0x0", and signatures recover to the actor
addresses. -/
def ChainSpecValid (keccakStr : String → String) (floatRepr : ℚ → String)
    (recover : String → String → Option String) (checksum : String → Option String)
    (receipts : List Receipt) (cid : Int) (addr agid chash : String) : Prop :=
  (sortBySeq receipts).map (fun r => r.sequence)
      = (List.range receipts.length).map Int.ofNat
  ∧ (∀ r ∈ receipts, r.chainId = cid ∧ r.contractAddress = addr
      ∧ r.agreementId = agid ∧ r.clauseHash = chash)
  ∧ (∀ r ∈ receipts, r.receiptHash = compute_receipt_hash keccakStr floatRepr r)
  ∧ (∀ r, (sortBySeq receipts).head? = some r → r.prevHash = "0x0")
  ∧ List.Chain' (fun a b => b.prevHash = a.receiptHash) (sortBySeq receipts)
  ∧ (∀ r ∈ receipts, SigSpecOk recover checksum r)

theorem did_checksum_fixed {checksum : String → Option String}
    (hcheck : ∀ s t, checksum s = some t → checksum t = some t)
    {actorId a : String} (h : did_to_address checksum actorId = some a) :
    checksum a = some a := by
  unfold did_to_address at h
  split at h
  · exact hcheck _ _ h
  · cases h

theorem sig_check_iff {recover : String → String → Option String}
    {checksum : String → Option String}
    (hcheck : ∀ s t, checksum s = some t → checksum t = some t) (r : Receipt) :
    (∃ signer, did_to_address checksum r.actorId = some signer
      ∧ verify_signature_eip191 recover checksum r.receiptHash r.signature signer
          = some true)
    ↔ SigSpecOk recover checksum r := by
  constructor
  · rintro ⟨signer, hdid, hver⟩
    have hfix := did_checksum_fixed hcheck hdid
    unfold verify_signature_eip191 recover_signer_eip191 at hver
    cases hrec : recover r.receiptHash r.signature with
    | none => rw [hrec] at hver; simp at hver
    | some raw =>
      rw [hrec] at hver
      have hver2 : (checksum raw).bind
          (fun rec => (checksum signer).map (fun ce => rec == ce)) = some true := hver
      cases hcr : checksum raw with
      | none => rw [hcr] at hver2; simp at hver2
      | some rec =>
        rw [hcr] at hver2
        have hver3 : (checksum signer).map (fun ce => rec == ce) = some true := hver2
        rw [hfix] at hver3
        have hbeq : (rec == signer) = true := by
          simpa using hver3
        have hrs : rec = signer := eq_of_beq hbeq
        exact ⟨signer, raw, hdid, hrec, by rw [← hrs]; exact hcr⟩
  · rintro ⟨a, raw, hdid, hrec, hcs⟩
    have hfix := did_checksum_fixed hcheck hdid
    refine ⟨a, hdid, ?_⟩
    unfold verify_signature_eip191 recover_signer_eip191
    rw [hrec]
    have : (checksum raw).bind
        (fun rec => (checksum a).map (fun ce => rec == ce)) = some true := by
      rw [hcs, hfix]
      simp
    exact this

theorem ite_nil_iff {P : Prop} [Decidable P] {msg : String} :
    (if P then [msg] else []) = [] ↔ ¬P := by
  split <;> simp [*]

theorem ne_segment_nil_iff {α : Type} [DecidableEq α] {x y : α} {msg : String} :
    (if x ≠ y then [msg] else []) = [] ↔ x = y := by
  rw [ite_nil_iff, not_ne_iff]

theorem header_segment_nil_iff {s field : String} (hs : s ≠ "") {msg : String} :
    (if s ≠ "" ∧ field ≠ s then [msg] else []) = [] ↔ field = s := by
  rw [ite_nil_iff]
  constructor
  · intro h
    by_contra hne
    exact h ⟨hs, hne⟩
  · intro h hc
    exact hc.2 h

theorem prev_segment_nil_iff (ordered : List Receipt) (idx : Nat) (r : Receipt) :
    (if idx = 0 then
      (if r.prevHash ≠ "0x0" then ["first receipt prevHash must be 0x0"] else [])
    else
      (match ordered[idx - 1]? with
       | some prev =>
         if r.prevHash ≠ prev.receiptHash then
           ["prevHash mismatch for " ++ r.receiptId]
         else []
       | none => [])) = []
    ↔ (if idx = 0 then r.prevHash = "0x0"
       else ∀ prev, ordered[idx - 1]? = some prev → r.prevHash = prev.receiptHash) := by
  by_cases h0 : idx = 0
  · simp only [h0, if_true, if_pos]
    rw [ne_segment_nil_iff]
  · simp only [h0, if_false, if_neg]
    cases hp : ordered[idx - 1]? with
    | none => simp
    | some prev =>
      rw [ne_segment_nil_iff]
      constructor
      · intro h prev2 hp2
        rw [Option.some.inj hp2] at h
        exact h
      · intro h
        exact h prev rfl

theorem sig_segment_nil_iff (recover : String → String → Option String)
    (checksum : String → Option String) (r : Receipt) :
    (match did_to_address checksum r.actorId with
      | none => ["signature verification failed for " ++ r.receiptId ++ ": invalid did"]
      | some signer =>
        match verify_signature_eip191 recover checksum r.receiptHash r.signature signer with
        | none => ["signature verification failed for " ++ r.receiptId ++ ": exception"]
        | some ok => if ok then [] else ["signature mismatch for " ++ r.receiptId]) = []
    ↔ (∃ signer, did_to_address checksum r.actorId = some signer
        ∧ verify_signature_eip191 recover checksum r.receiptHash r.signature signer
            = some true) := by
  cases hdid : did_to_address checksum r.actorId with
  | none => simp
  | some signer =>
    cases hver : verify_signature_eip191 recover checksum r.receiptHash r.signature signer with
    | none => simp [hver]
    | some ok =>
      cases ok with
      | false => simp [hver]
      | true => simp [hver]

theorem receiptErrors_nil_iff (keccakStr : String → String) (floatRepr : ℚ → String)
    (recover : String → String → Option String) (checksum : String → Option String)
    (cid : Int) (addr agid chash : String)
    (haddr : addr ≠ "") (hagid : agid ≠ "") (hchash : chash ≠ "")
    (ordered : List Receipt) (idx : Nat) (r : Receipt) :
    receiptErrors keccakStr floatRepr recover checksum
        ⟨some cid, some addr, some agid, some chash⟩ ordered idx r = []
    ↔ (r.sequence = (idx : Int)
       ∧ r.chainId = cid ∧ r.contractAddress = addr
       ∧ r.agreementId = agid ∧ r.clauseHash = chash
       ∧ r.receiptHash = compute_receipt_hash keccakStr floatRepr r
       ∧ (if idx = 0 then r.prevHash = "0x0"
          else ∀ prev, ordered[idx - 1]? = some prev → r.prevHash = prev.receiptHash)
       ∧ (∃ signer, did_to_address checksum r.actorId = some signer
          ∧ verify_signature_eip191 recover checksum r.receiptHash r.signature signer
              = some true)) := by
  unfold receiptErrors
  simp only [List.append_eq_nil]
  rw [ne_segment_nil_iff, ne_segment_nil_iff, header_segment_nil_iff haddr,
    header_segment_nil_iff hagid, header_segment_nil_iff hchash, ne_segment_nil_iff,
    prev_segment_nil_iff, sig_segment_nil_iff]
  rw [show (compute_receipt_hash keccakStr floatRepr r = r.receiptHash)
      ↔ (r.receiptHash = compute_receipt_hash keccakStr floatRepr r) from eq_comm]
  simp [and_assoc]

theorem flatMap_nil_iff {α β : Type} (l : List α) (f : α → List β) :
    l.flatMap f = [] ↔ ∀ x ∈ l, f x = [] :=
  List.flatMap_eq_nil_iff

theorem pointwise_iff_chainSpec (keccakStr : String → String) (floatRepr : ℚ → String)
    (recover : String → String → Option String) (checksum : String → Option String)
    (hcheck : ∀ s t, checksum s = some t → checksum t = some t)
    (receipts : List Receipt) (cid : Int) (addr agid chash : String) :
    (∀ (i : Nat) (r : Receipt), (sortBySeq receipts)[i]? = some r →
        (r.sequence = (i : Int)
         ∧ r.chainId = cid ∧ r.contractAddress = addr
         ∧ r.agreementId = agid ∧ r.clauseHash = chash
         ∧ r.receiptHash = compute_receipt_hash keccakStr floatRepr r
         ∧ (if i = 0 then r.prevHash = "0x0"
            else ∀ prev, (sortBySeq receipts)[i - 1]? = some prev →
              r.prevHash = prev.receiptHash)
         ∧ (∃ signer, did_to_address checksum r.actorId = some signer
            ∧ verify_signature_eip191 recover checksum r.receiptHash r.signature signer
                = some true)))
    ↔ ChainSpecValid keccakStr floatRepr recover checksum receipts cid addr agid chash := by
  have hperm : (sortBySeq receipts).Perm receipts := List.perm_insertionSort seqLeR receipts
  have hlen : (sortBySeq receipts).length = receipts.length := hperm.length_eq
  constructor
  · intro H
    refine ⟨?_, ?_, ?_, ?_, ?_, ?_⟩
    · apply List.ext_getElem?
      intro j
      rw [List.getElem?_map, List.getElem?_map]
      by_cases hj : j < receipts.length
      · have hjL : j < (sortBySeq receipts).length := by rw [hlen]; exact hj
        rw [List.getElem?_eq_getElem hjL, List.getElem?_range hj]
        have := (H j _ (List.getElem?_eq_getElem hjL)).1
        simp [this]
      · have h1 : (sortBySeq receipts).length ≤ j := by rw [hlen]; omega
        have h2 : (List.range receipts.length).length ≤ j := by
          rw [List.length_range]; omega
        rw [List.getElem?_eq_none h1, List.getElem?_eq_none h2]
        simp
    · intro r hr
      obtain ⟨i, hi⟩ := List.mem_iff_getElem?.mp (hperm.mem_iff.mpr hr)
      have h := H i r hi
      exact ⟨h.2.1, h.2.2.1, h.2.2.2.1, h.2.2.2.2.1⟩
    · intro r hr
      obtain ⟨i, hi⟩ := List.mem_iff_getElem?.mp (hperm.mem_iff.mpr hr)
      exact (H i r hi).2.2.2.2.2.1
    · intro r hr
      have h0 : (sortBySeq receipts)[0]? = some r := by
        rw [← List.head?_eq_getElem?]; exact hr
      have := (H 0 r h0).2.2.2.2.2.2.1
      simpa using this
    · rw [List.chain'_iff_get]
      intro i hi
      have hi1 : i + 1 < (sortBySeq receipts).length := by omega
      have h2 : (sortBySeq receipts)[i + 1]? =
          some ((sortBySeq receipts).get ⟨i + 1, hi1⟩) :=
        List.getElem?_eq_getElem hi1
      have hprevcl := (H (i + 1) _ h2).2.2.2.2.2.2.1
      simp only [Nat.succ_ne_zero, if_false, if_neg, Nat.add_sub_cancel] at hprevcl
      exact hprevcl _ (List.getElem?_eq_getElem (by omega))
    · intro r hr
      obtain ⟨i, hi⟩ := List.mem_iff_getElem?.mp (hperm.mem_iff.mpr hr)
      exact (sig_check_iff hcheck r).mp (H i r hi).2.2.2.2.2.2.2
  · rintro ⟨hseq, hhdr, hhash, hhead, hchain, hsig⟩ i r hir
    obtain ⟨hiL, hgetr⟩ := List.getElem?_eq_some_iff.mp hir
    have hmem : r ∈ receipts := hperm.mem_iff.mp (List.mem_iff_getElem?.mpr ⟨i, hir⟩)
    have hin : i < receipts.length := by omega
    refine ⟨?_, (hhdr r hmem).1, (hhdr r hmem).2.1, (hhdr r hmem).2.2.1,
      (hhdr r hmem).2.2.2, hhash r hmem, ?_, (sig_check_iff hcheck r).mpr (hsig r hmem)⟩
    · have := congrArg (fun l => l[i]?) hseq
      simp only [List.getElem?_map] at this
      rw [hir, List.getElem?_range hin] at this
      simpa using this
    · by_cases h0 : i = 0
      · subst h0
        simp only [if_true, if_pos]
        apply hhead
        rw [List.head?_eq_getElem?]
        exact hir
      · simp only [h0, if_false, if_neg]
        intro prev hprev
        obtain ⟨hpL, hgetp⟩ := List.getElem?_eq_some_iff.mp hprev
        have hchg := List.chain'_iff_get.mp hchain (i - 1) (by omega)
        have e1 : (sortBySeq receipts).get ⟨i - 1, by omega⟩ = prev := hgetp
        have e2 : (sortBySeq receipts).get ⟨i - 1 + 1, by omega⟩ = r := by
          have : i - 1 + 1 = i := by omega
          simp only [this]
          exact hgetr
        rw [e1, e2] at hchg
        exact hchg

/-- C1: `verify_receipt_chain` returns ok with an empty error list exactly when
the sorted sequences are 0..n-1, the header fields match the expected values,
each receiptHash is the recomputed canonical hash, prevHash links the chain
from "0x0", and every signature recovers to the address in actorId; whenever
any of these checks fails for any receipt the error list is non-empty. -/
theorem C1_verify_receipt_chain_ok_iff (keccakStr : String → String)
    (floatRepr : ℚ → String) (recover : String → String → Option String)
    (checksum : String → Option String)
    (hcheck : ∀ s t, checksum s = some t → checksum t = some t)
    (receipts : List Receipt) (cid : Int) (addr agid chash : String)
    (haddr : addr ≠ "") (hagid : agid ≠ "") (hchash : chash ≠ "") :
    ((verify_receipt_chain keccakStr floatRepr recover checksum receipts
        ⟨some cid, some addr, some agid, some chash⟩).ok = true
     ∧ (verify_receipt_chain keccakStr floatRepr recover checksum receipts
        ⟨some cid, some addr, some agid, some chash⟩).errors = [])
    ↔ ChainSpecValid keccakStr floatRepr recover checksum receipts cid addr agid chash := by
  have herr : (verify_receipt_chain keccakStr floatRepr recover checksum receipts
      ⟨some cid, some addr, some agid, some chash⟩).errors
      = (sortBySeq receipts).enum.flatMap
          (fun ir => receiptErrors keccakStr floatRepr recover checksum
            ⟨some cid, some addr, some agid, some chash⟩ (sortBySeq receipts) ir.1 ir.2) := rfl
  have hok : (verify_receipt_chain keccakStr floatRepr recover checksum receipts
      ⟨some cid, some addr, some agid, some chash⟩).ok
      = ((sortBySeq receipts).enum.flatMap
          (fun ir => receiptErrors keccakStr floatRepr recover checksum
            ⟨some cid, some addr, some agid, some chash⟩ (sortBySeq receipts) ir.1 ir.2)).isEmpty := rfl
  have hmain : (verify_receipt_chain keccakStr floatRepr recover checksum receipts
      ⟨some cid, some addr, some agid, some chash⟩).errors = []
      ↔ ChainSpecValid keccakStr floatRepr recover checksum receipts cid addr agid chash := by
    rw [herr, flatMap_nil_iff]
    rw [← pointwise_iff_chainSpec keccakStr floatRepr recover checksum hcheck
      receipts cid addr agid chash]
    constructor
    · intro h i r hir
      exact (receiptErrors_nil_iff keccakStr floatRepr recover checksum cid addr agid chash
        haddr hagid hchash (sortBySeq receipts) i r).mp
        (h (i, r) (List.mem_enum_iff_getElem?.mpr hir))
    · intro h p hp
      exact (receiptErrors_nil_iff keccakStr floatRepr recover checksum cid addr agid chash
        haddr hagid hchash (sortBySeq receipts) p.1 p.2).mpr
        (h p.1 p.2 (List.mem_enum_iff_getElem?.mp hp))
  constructor
  · rintro ⟨_, herrs⟩
    exact hmain.mp herrs
  · intro hspec
    have herrs := hmain.mpr hspec
    refine ⟨?_, herrs⟩
    rw [hok, List.isEmpty_iff]
    rw [herr] at herrs
    exact herrs

/-- Witness for C1: at the concrete empty chain with concrete primitives the
hypotheses hold and both sides of the equivalence are satisfied. -/
theorem C1_verify_receipt_chain_ok_iff_witness :
    (("0xadd" : String) ≠ "" ∧ ("agr" : String) ≠ "" ∧ ("0xcl" : String) ≠ "")
    ∧ ((verify_receipt_chain (fun _ => "H") (fun _ => "F") (fun _ _ => none) some []
        ⟨some 1, some "0xadd", some "agr", some "0xcl"⟩).ok = true
      ∧ (verify_receipt_chain (fun _ => "H") (fun _ => "F") (fun _ _ => none) some []
        ⟨some 1, some "0xadd", some "agr", some "0xcl"⟩).errors = []) := by
  refine ⟨⟨by decide, by decide, by decide⟩, ?_⟩
  refine (C1_verify_receipt_chain_ok_iff (fun _ => "H") (fun _ => "F") (fun _ _ => none) some
    (fun s t h => by cases h; rfl) [] 1 "0xadd" "agr" "0xcl"
    (by decide) (by decide) (by decide)).mpr ?_
  refine ⟨rfl, ?_, ?_, ?_, ?_, ?_⟩
  · intro r hr; cases hr
  · intro r hr; cases hr
  · intro r hr
    cases hr
  · exact List.chain'_nil
  · intro r hr; cases hr

/-! ## Clauses (`types.py`, `hashing.py`) and the evidence service
(`routes.py`, `storage.py`) -/

structure Rule where
  ruleId : String
  metric : String
  operator : String
  value : ℚ
  unit : String
deriving Repr

structure RemedyRule where
  condition : String
  action : String
  percent : ℚ
deriving Repr

structure Clause where
  schemaVersion : String
  clauseId : String
  chainId : Int
  contractAddress : String
  agreementId : String
  serviceScope : String
  slaRules : List Rule
  abuseRules : List Rule
  disputeWindowSec : Int
  evidenceWindowSec : Int
  remedyRules : List RemedyRule
  judgeFeePercent : ℚ
  clauseHash : String
deriving Repr

def Rule.toJv (r : Rule) : Jv :=
  .obj [("ruleId", .str r.ruleId), ("metric", .str r.metric),
    ("operator", .str r.operator), ("value", .float r.value), ("unit", .str r.unit)]

def RemedyRule.toJv (r : RemedyRule) : Jv :=
  .obj [("condition", .str r.condition), ("action", .str r.action),
    ("percent", .float r.percent)]

/-- The clause as the JSON dict produced by `model_dump()`. -/
def Clause.toJv (c : Clause) : Jv :=
  .obj [("schemaVersion", .str c.schemaVersion), ("clauseId", .str c.clauseId),
    ("chainId", .int c.chainId), ("contractAddress", .str c.contractAddress),
    ("agreementId", .str c.agreementId), ("serviceScope", .str c.serviceScope),
    ("slaRules", .arr (c.slaRules.map Rule.toJv)),
    ("abuseRules", .arr (c.abuseRules.map Rule.toJv)),
    ("disputeWindowSec", .int c.disputeWindowSec),
    ("evidenceWindowSec", .int c.evidenceWindowSec),
    ("remedyRules", .arr (c.remedyRules.map RemedyRule.toJv)),
    ("judgeFeePercent", .float c.judgeFeePercent),
    ("clauseHash", .str c.clauseHash)]

/-- Function `compute_clause_hash` from `hashing.py`. -/
def compute_clause_hash (keccakStr : String → String) (floatRepr : ℚ → String)
    (c : Clause) : String :=
  hash_canonical keccakStr floatRepr (without_fields c.toJv ["clauseHash"])

/-- The DID format validator of `EventReceipt` in `types.py`. -/
def didFormatOk (s : String) : Bool :=
  startsWithChars ("did:8004:0x".data) s.data
    && (s.data.length == ("did:8004:0x".data.length + 40))

/-- The pydantic field constraints of `EventReceipt` in `types.py`. -/
def receiptDocValid (r : Receipt) : Bool :=
  (r.schemaVersion == "1.0.0") && (1 ≤ r.chainId) && (0 ≤ r.sequence)
    && (0 ≤ r.timestamp)
    && ["request", "response", "payment", "sla_check", "dispute_filed"].contains r.eventType
    && didFormatOk r.actorId && didFormatOk r.counterpartyId

/-- The pydantic field constraints of `ArbitrationClause` in `types.py`. -/
def clauseDocValid (c : Clause) : Bool :=
  (c.schemaVersion == "1.0.0") && (1 ≤ c.chainId) && (1 ≤ c.disputeWindowSec)
    && (1 ≤ c.evidenceWindowSec)
    && (0 ≤ c.judgeFeePercent && c.judgeFeePercent ≤ 100)
    && c.remedyRules.all (fun r => 0 ≤ r.percent && r.percent ≤ 100)

/-- Method `storage.list_receipts(agreement_id)`: filter by agreement, order by
sequence (the unique `(agreementId, sequence)` index makes the order total). -/
def list_receipts (store : List Receipt) (agreementId : String) : List Receipt :=
  sortBySeq (store.filter (fun r => r.agreementId == agreementId))

/-- Method `storage.store_receipt`: a plain INSERT; `none` models the integrity error
on the `receipt_id` primary key or the unique `(agreement_id, sequence)`
index. -/
def store_receipt (store : List Receipt) (r : Receipt) : Option (List Receipt) :=
  if store.any (fun x => x.receiptId == r.receiptId) then none
  else if store.any (fun x => x.agreementId == r.agreementId
      && x.sequence == r.sequence) then none
  else some (store ++ [r])

/-- Handler `routes.post_receipt`: pydantic validation, schema validation, hash check,
chain verification of `existing ++ [receipt]` with no expected header values,
then the insert. `schemaOk` is modelled from the spec: jsonschema validation of
the single receipt document (the `schemas/` directory is not in the sources);
it sees only the one document being posted. -/
def post_receipt (keccakStr : String → String) (floatRepr : ℚ → String)
    (recover : String → String → Option String) (checksum : String → Option String)
    (schemaOk : Receipt → Bool) (store : List Receipt) (r : Receipt) :
    Option (List Receipt) :=
  if !(receiptDocValid r) then none
  else if !(schemaOk r) then none
  else if r.receiptHash != compute_receipt_hash keccakStr floatRepr r then none
  else
    let existing := list_receipts store r.agreementId
    let chain := verify_receipt_chain keccakStr floatRepr recover checksum
      (existing ++ [r]) ⟨none, none, none, none⟩
    if !chain.ok then none
    else store_receipt store r

/-- One POST /receipts request against the store: a rejected request (an HTTP
400/422) leaves the store unchanged. -/
def postReceiptStep (keccakStr : String → String) (floatRepr : ℚ → String)
    (recover : String → String → Option String) (checksum : String → Option String)
    (schemaOk : Receipt → Bool) (store : List Receipt) (r : Receipt) : List Receipt :=
  (post_receipt keccakStr floatRepr recover checksum schemaOk store r).getD store

/-- The receipt store after a sequence of POST /receipts requests. -/
def runPosts (keccakStr : String → String) (floatRepr : ℚ → String)
    (recover : String → String → Option String) (checksum : String → Option String)
    (schemaOk : Receipt → Bool) (posts : List Receipt) : List Receipt :=
  posts.foldl (postReceiptStep keccakStr floatRepr recover checksum schemaOk) []

/-- The invariant claimed for the receipt store: receipts of one agreement
share all header fields. -/
def HeaderInvariant (store : List Receipt) : Prop :=
  ∀ r1 ∈ store, ∀ r2 ∈ store, r1.agreementId = r2.agreementId →
    r1.chainId = r2.chainId ∧ r1.contractAddress = r2.contractAddress
      ∧ r1.clauseHash = r2.clauseHash

theorem post_receipt_some {keccakStr : String → String} {floatRepr : ℚ → String}
    {recover : String → String → Option String} {checksum : String → Option String}
    {schemaOk : Receipt → Bool} {store : List Receipt} {r : Receipt}
    {st' : List Receipt}
    (h : post_receipt keccakStr floatRepr recover checksum schemaOk store r = some st') :
    st' = store ++ [r]
      ∧ r.receiptHash = compute_receipt_hash keccakStr floatRepr r := by
  unfold post_receipt at h
  by_cases h1 : receiptDocValid r = true
  · by_cases h2 : schemaOk r = true
    · by_cases hhash : r.receiptHash = compute_receipt_hash keccakStr floatRepr r
      · refine ⟨?_, hhash⟩
        simp only [h1, h2, Bool.not_true, Bool.false_eq_true, if_false, if_neg,
          Bool.not_eq_true] at h
        rw [if_neg (by simp [hhash])] at h
        split at h
        · cases h
        · unfold store_receipt at h
          split at h
          · cases h
          · split at h
            · cases h
            · exact (Option.some.inj h).symm
      · rw [if_neg (by simp [h1]), if_neg (by simp [h2]), if_pos (by simp [hhash])] at h
        cases h
    · rw [if_neg (by simp [h1]), if_pos (by simp [h2])] at h
      cases h
  · rw [if_pos (by simp [h1])] at h
    cases h

theorem list_receipts_agreement (store : List Receipt) (ag : String) :
    ∀ r ∈ list_receipts store ag, r.agreementId = ag := by
  intro r hr
  unfold list_receipts at hr
  have hmem : r ∈ store.filter (fun x => x.agreementId == ag) :=
    (List.perm_insertionSort seqLeR _).mem_iff.mp hr
  have := List.of_mem_filter hmem
  exact eq_of_beq this

theorem runPosts_hash_invariant (keccakStr : String → String) (floatRepr : ℚ → String)
    (recover : String → String → Option String) (checksum : String → Option String)
    (schemaOk : Receipt → Bool) :
    ∀ (posts store : List Receipt),
      (∀ r ∈ store, r.receiptHash = compute_receipt_hash keccakStr floatRepr r) →
      ∀ r ∈ posts.foldl (postReceiptStep keccakStr floatRepr recover checksum schemaOk) store,
        r.receiptHash = compute_receipt_hash keccakStr floatRepr r := by
  intro posts
  induction posts with
  | nil => intro store h; simpa using h
  | cons p ps ih =>
    intro store h
    rw [List.foldl_cons]
    apply ih
    intro r hr
    unfold postReceiptStep at hr
    cases hpost : post_receipt keccakStr floatRepr recover checksum schemaOk store p with
    | none =>
      rw [hpost] at hr
      exact h r hr
    | some st' =>
      rw [hpost] at hr
      obtain ⟨heq, hhash⟩ := post_receipt_some hpost
      subst heq
      simp only [Option.getD_some, List.mem_append, List.mem_singleton] at hr
      cases hr with
      | inl hin => exact h r hin
      | inr hp => rw [hp]; exact hhash

/-- Forty lowercase hex chars, the address tail used by the counterexamples. -/
def hexA40 : String := String.mk (List.replicate 40 'a')

def cexActor : String := "did:8004:0x" ++ hexA40

def cexAddr : String := "0x" ++ hexA40

/-- First counterexample receipt: agreement "agr", chainId 1, sequence 0. -/
def cexR0 : Receipt :=
  { schemaVersion := "1.0.0", receiptId := "r0", chainId := 1,
    contractAddress := "0xc", agreementId := "agr", clauseHash := "0xcl",
    sequence := 0, eventType := "request", timestamp := 0,
    actorId := cexActor, counterpartyId := cexActor, requestId := "q0",
    payloadHash := "p", prevHash := "0x0", metadata := .obj [],
    receiptHash := "H", signature := cexAddr }

/-- Second counterexample receipt: same agreement, correctly linked and
self-consistently hashed, but with a different chainId. -/
def cexR1 : Receipt :=
  { schemaVersion := "1.0.0", receiptId := "r1", chainId := 2,
    contractAddress := "0xc", agreementId := "agr", clauseHash := "0xcl",
    sequence := 1, eventType := "request", timestamp := 0,
    actorId := cexActor, counterpartyId := cexActor, requestId := "q1",
    payloadHash := "p", prevHash := "H", metadata := .obj [],
    receiptHash := "H", signature := cexAddr }

/-- Counterexample for C4: with a per-document schema check and
self-consistent hashes and signatures, POST /receipts accepts two receipts of
the same agreement whose chainId differs — ingestion performs no cross-receipt
header check (`verify_receipt_chain` is called without expected values). -/
theorem C4_header_invariant_counterexample :
    ((runPosts (fun _ => "H") (fun _ => "F") (fun _ sig => some sig) some
        (fun _ => true) [cexR0, cexR1]).map (fun r => (r.agreementId, r.chainId))
      = [("agr", 1), ("agr", 2)])
    ∧ ¬ HeaderInvariant (runPosts (fun _ => "H") (fun _ => "F") (fun _ sig => some sig) some
        (fun _ => true) [cexR0, cexR1]) := by
  have hrun : runPosts (fun _ => "H") (fun _ => "F") (fun _ sig => some sig) some
      (fun _ => true) [cexR0, cexR1] = [cexR0, cexR1] := by rfl
  constructor
  · rw [hrun]; rfl
  · rw [hrun]
    intro h
    have h12 := h cexR0 (List.mem_cons_self _ _) cexR1
      (List.mem_cons_of_mem _ (List.mem_cons_self _ _)) rfl
    exact absurd h12.1 (by decide)

/-- C4 amended: ingestion maintains that every stored receipt carries its own
recomputed hash and that receipts listed for an agreement carry that
agreementId; equality of chainId, contractAddress and clauseHash across an
agreement's receipts is not checked. -/
theorem C4_receipt_store_invariants (keccakStr : String → String)
    (floatRepr : ℚ → String) (recover : String → String → Option String)
    (checksum : String → Option String) (schemaOk : Receipt → Bool)
    (posts : List Receipt) :
    (∀ r ∈ runPosts keccakStr floatRepr recover checksum schemaOk posts,
        r.receiptHash = compute_receipt_hash keccakStr floatRepr r)
    ∧ (∀ ag : String,
        ∀ r ∈ list_receipts (runPosts keccakStr floatRepr recover checksum schemaOk posts) ag,
          r.agreementId = ag) := by
  constructor
  · exact runPosts_hash_invariant keccakStr floatRepr recover checksum schemaOk posts []
      (by intro r hr; cases hr)
  · intro ag
    exact list_receipts_agreement _ ag

/-! ## POST /clauses and clause storage (`routes.post_clause`,
`storage.store_clause`) -/

/-- Method `storage.store_clause`: `INSERT OR REPLACE` deletes every row conflicting
on the `clause_id` primary key or the unique `agreement_id` index, then
inserts the new row. -/
def store_clause (store : List Clause) (c : Clause) : List Clause :=
  (store.filter (fun row =>
    !(row.clauseId == c.clauseId) && !(row.agreementId == c.agreementId))) ++ [c]

/-- Handler `routes.post_clause`: pydantic validation, schema validation, clause hash
check, then the upsert. `schemaOkClause` is modelled from the spec: jsonschema
validation of the single clause document (the `schemas/` directory is not in
the sources). -/
def post_clause (keccakStr : String → String) (floatRepr : ℚ → String)
    (schemaOkClause : Clause → Bool) (store : List Clause) (c : Clause) :
    Option (List Clause) :=
  if !(clauseDocValid c) then none
  else if !(schemaOkClause c) then none
  else if c.clauseHash != compute_clause_hash keccakStr floatRepr c then none
  else some (store_clause store c)

def postClauseStep (keccakStr : String → String) (floatRepr : ℚ → String)
    (schemaOkClause : Clause → Bool) (store : List Clause) (c : Clause) : List Clause :=
  (post_clause keccakStr floatRepr schemaOkClause store c).getD store

/-- The clause store after a sequence of POST /clauses requests. -/
def runClausePosts (keccakStr : String → String) (floatRepr : ℚ → String)
    (schemaOkClause : Clause → Bool) (posts : List Clause) : List Clause :=
  posts.foldl (postClauseStep keccakStr floatRepr schemaOkClause) []

/-- Method `storage.get_clause_by_agreement`. -/
def get_clause_by_agreement (store : List Clause) (ag : String) : Option Clause :=
  store.find? (fun c => c.agreementId == ag)

/-- First counterexample clause. -/
def cexC1 : Clause :=
  { schemaVersion := "1.0.0", clauseId := "c1", chainId := 1,
    contractAddress := "0xc", agreementId := "agr", serviceScope := "A",
    slaRules := [], abuseRules := [], disputeWindowSec := 30,
    evidenceWindowSec := 30, remedyRules := [], judgeFeePercent := 5,
    clauseHash := "H" }

/-- Second counterexample clause: same clauseId and agreementId, different
document body. -/
def cexC2 : Clause :=
  { schemaVersion := "1.0.0", clauseId := "c1", chainId := 1,
    contractAddress := "0xc", agreementId := "agr", serviceScope := "B",
    slaRules := [], abuseRules := [], disputeWindowSec := 30,
    evidenceWindowSec := 30, remedyRules := [], judgeFeePercent := 5,
    clauseHash := "H" }

/-- Counterexample for C5: a second accepted POST /clauses with the same
clauseId and agreementId but a different body replaces the stored clause
document — clauses are not immutable after creation (`INSERT OR REPLACE`). -/
theorem C5_clause_immutability_counterexample :
    ((get_clause_by_agreement
        (runClausePosts (fun _ => "H") (fun _ => "F") (fun _ => true) [cexC1]) "agr").map
          (fun c => c.serviceScope) = some "A")
    ∧ ((get_clause_by_agreement
        (runClausePosts (fun _ => "H") (fun _ => "F") (fun _ => true) [cexC1, cexC2]) "agr").map
          (fun c => c.serviceScope) = some "B")
    ∧ post_clause (fun _ => "H") (fun _ => "F") (fun _ => true)
        (runClausePosts (fun _ => "H") (fun _ => "F") (fun _ => true) [cexC1]) cexC2
        ≠ none := by
  refine ⟨by rfl, by rfl, by intro h; cases h⟩

theorem store_clause_map_nodup (f : Clause → String) (store : List Clause) (c : Clause)
    (hnd : (store.map f).Nodup)
    (hp : ∀ x : Clause,
      (!(x.clauseId == c.clauseId) && !(x.agreementId == c.agreementId)) = true →
        f x ≠ f c) :
    ((store_clause store c).map f).Nodup := by
  unfold store_clause
  rw [List.map_append]
  refine List.Nodup.append ?_ (by simp) ?_
  · exact hnd.sublist ((List.filter_sublist store).map f)
  · intro a ha hb
    simp only [List.map_cons, List.map_nil, List.mem_singleton] at hb
    obtain ⟨x, hx, hfx⟩ := List.mem_map.mp ha
    have hcond := List.of_mem_filter hx
    exact hp x hcond (by rw [hfx, hb])

theorem post_clause_some {keccakStr : String → String} {floatRepr : ℚ → String}
    {schemaOkClause : Clause → Bool} {store : List Clause} {c : Clause}
    {st' : List Clause}
    (h : post_clause keccakStr floatRepr schemaOkClause store c = some st') :
    st' = store_clause store c := by
  unfold post_clause at h
  split at h
  · cases h
  · split at h
    · cases h
    · split at h
      · cases h
      · exact (Option.some.inj h).symm

/-- C5 amended: the store keeps at most one clause per agreementId and at most
one per clauseId after every sequence of POST /clauses requests (the part of
the claim the code maintains); immutability does not hold. -/
theorem C5_clause_uniqueness (keccakStr : String → String) (floatRepr : ℚ → String)
    (schemaOkClause : Clause → Bool) (posts : List Clause) :
    ((runClausePosts keccakStr floatRepr schemaOkClause posts).map
        (fun c => c.agreementId)).Nodup
    ∧ ((runClausePosts keccakStr floatRepr schemaOkClause posts).map
        (fun c => c.clauseId)).Nodup := by
  suffices H : ∀ (posts store : List Clause),
      (store.map (fun c => c.agreementId)).Nodup →
      (store.map (fun c => c.clauseId)).Nodup →
      ((posts.foldl (postClauseStep keccakStr floatRepr schemaOkClause) store).map
          (fun c => c.agreementId)).Nodup
        ∧ ((posts.foldl (postClauseStep keccakStr floatRepr schemaOkClause) store).map
          (fun c => c.clauseId)).Nodup by
    exact H posts [] (by simp) (by simp)
  intro posts
  induction posts with
  | nil => intro store h1 h2; exact ⟨by simpa using h1, by simpa using h2⟩
  | cons p ps ih =>
    intro store h1 h2
    rw [List.foldl_cons]
    apply ih
    · unfold postClauseStep
      cases hpost : post_clause keccakStr floatRepr schemaOkClause store p with
      | none => simpa using h1
      | some st' =>
        rw [post_clause_some hpost]
        simp only [Option.getD_some]
        refine store_clause_map_nodup _ store p h1 ?_
        intro x hx
        have := (Bool.and_eq_true _ _).mp hx
        have h2x := this.2
        rw [Bool.not_eq_true'] at h2x
        intro heq
        rw [heq] at h2x
        simp at h2x
    · unfold postClauseStep
      cases hpost : post_clause keccakStr floatRepr schemaOkClause store p with
      | none => simpa using h2
      | some st' =>
        rw [post_clause_some hpost]
        simp only [Option.getD_some]
        refine store_clause_map_nodup _ store p h2 ?_
        intro x hx
        have := (Bool.and_eq_true _ _).mp hx
        have h1x := this.1
        rw [Bool.not_eq_true'] at h1x
        intro heq
        rw [heq] at h1x
        simp at h1x

/-! ## The judge's fact extractor (`fact_extractor.py`) -/

structure Facts where
  latency_ms : Int
  response_format_ok : Bool
  peak_requests_per_minute : Nat
  request_count : Nat
  response_count : Nat
deriving Repr, DecidableEq

/-- Python dict assignment `m[k] = v`: overwrite in place, else append. -/
def dictInsert (m : List (String × Int)) (k : String) (v : Int) : List (String × Int) :=
  if m.any (fun p => p.1 == k) then
    m.map (fun p => if p.1 == k then (p.1, v) else p)
  else m ++ [(k, v)]

def dictLookup (m : List (String × Int)) (k : String) : Option Int :=
  (m.find? (fun p => p.1 == k)).map (fun p => p.2)

/-- Dicts `request_times` / `response_times`: requestId → timestamp for receipts of
one event type, in encounter order with overwrite. -/
def collectTimes (eventType : String) (receipts : List Receipt) : List (String × Int) :=
  receipts.foldl
    (fun m r => if r.eventType == eventType then dictInsert m r.requestId r.timestamp else m)
    []

def jvGet (m : Jv) (k : String) : Option Jv :=
  match m with
  | .obj kvs => (kvs.find? (fun kv => kv.1 == k)).map (fun kv => kv.2)
  | _ => none

/-- Flag `response_format_ok`: false iff some response has
`metadata.result_type == "bad_format"`. -/
def responseFormatOk (receipts : List Receipt) : Bool :=
  !(receipts.any (fun r => r.eventType == "response"
      && (match jvGet r.metadata "result_type" with
          | some (.str s) => s == "bad_format"
          | _ => false)))

/-- The clamp `max(0, response_ts - request_ts)` per matched requestId. -/
def latenciesOf (reqT respT : List (String × Int)) : List Int :=
  reqT.filterMap (fun p => (dictLookup respT p.1).map (fun rts => max 0 (rts - p.2)))

/-- Python `max(l)` of a list of ints, with the Python fallback 0 for the empty list. -/
def listMaxInt : List Int → Int
  | [] => 0
  | x :: xs => xs.foldl max x

/-- Python `max(l)` of a list of naturals, with the Python fallback 0 for empty. -/
def listMaxNat : List Nat → Nat
  | [] => 0
  | x :: xs => xs.foldl max x

/-- Python `max(latencies)` with 0 for the empty list. -/
def maxLatencyOf (receipts : List Receipt) : Int :=
  listMaxInt
    (latenciesOf (collectTimes "request" receipts) (collectTimes "response" receipts))

/-- Buckets `timestamp // 60000` of every request receipt (`by_minute` key stream). -/
def requestBuckets (receipts : List Receipt) : List Int :=
  (receipts.filter (fun r => r.eventType == "request")).map
    (fun r => r.timestamp.fdiv 60000)

/-- Python `max(by_minute.values())` with 0 when no requests. -/
def peakRpm (receipts : List Receipt) : Nat :=
  listMaxNat ((requestBuckets receipts).map (fun b => (requestBuckets receipts).count b))

def slaReasonCodes (clause : Clause) (max_latency : Int) : List String :=
  clause.slaRules.flatMap (fun rule =>
    if rule.metric == "latency_ms" && rule.operator == "<="
        && decide ((max_latency : ℚ) > rule.value) then
      ["sla_breach:latency"]
    else [])

def abuseReasonCodes (clause : Clause) (peak : Nat) : List String :=
  clause.abuseRules.flatMap (fun rule =>
    if rule.metric == "requests_per_minute" && rule.operator == "<="
        && decide ((peak : ℚ) > rule.value) then
      ["clause_violated:rate_limit"]
    else [])

/-- Function `extract_facts` from `fact_extractor.py` (rule values are modeled as
rationals): returns the facts, the reason codes and the deterministic
winner. -/
def extract_facts (clause : Clause) (receipts : List Receipt) :
    Facts × List String × Option String :=
  let request_times := collectTimes "request" receipts
  let response_times := collectTimes "response" receipts
  let facts : Facts :=
    { latency_ms := maxLatencyOf receipts,
      response_format_ok := responseFormatOk receipts,
      peak_requests_per_minute := peakRpm receipts,
      request_count := request_times.length,
      response_count := response_times.length }
  let reason_codes :=
    slaReasonCodes clause (maxLatencyOf receipts) ++ abuseReasonCodes clause (peakRpm receipts)
  let winner : Option String :=
    if reason_codes ≠ [] then some "plaintiff"
    else if request_times.length > 0 then some "defendant"
    else none
  (facts, reason_codes, winner)

theorem extract_facts_codes (clause : Clause) (receipts : List Receipt) :
    (extract_facts clause receipts).2.1 =
      slaReasonCodes clause (maxLatencyOf receipts)
        ++ abuseReasonCodes clause (peakRpm receipts) := rfl

theorem extract_facts_winner (clause : Clause) (receipts : List Receipt) :
    (extract_facts clause receipts).2.2 =
      if (extract_facts clause receipts).2.1 ≠ [] then some "plaintiff"
      else if (collectTimes "request" receipts).length > 0 then some "defendant"
      else none := rfl

theorem le_foldl_max (xs : List Nat) : ∀ a : Nat, a ≤ xs.foldl max a := by
  induction xs with
  | nil => intro a; simp
  | cons y ys ih =>
    intro a
    rw [List.foldl_cons]
    exact le_trans (le_max_left a y) (ih (max a y))

theorem mem_le_foldl_max (xs : List Nat) : ∀ (a x : Nat), x ∈ xs → x ≤ xs.foldl max a := by
  induction xs with
  | nil => intro a x hx; cases hx
  | cons y ys ih =>
    intro a x hx
    rw [List.foldl_cons]
    cases hx with
    | head => exact le_trans (le_max_right a y) (le_foldl_max ys (max a y))
    | tail _ hmem => exact ih (max a y) x hmem

theorem mem_le_listMaxNat (l : List Nat) (x : Nat) (hx : x ∈ l) : x ≤ listMaxNat l := by
  cases l with
  | nil => cases hx
  | cons y ys =>
    cases hx with
    | head => exact le_foldl_max ys x
    | tail _ h => exact mem_le_foldl_max ys y x h

theorem count_le_peakRpm (receipts : List Receipt) (bucket : Int)
    (hmem : bucket ∈ requestBuckets receipts) :
    (requestBuckets receipts).count bucket ≤ peakRpm receipts := by
  unfold peakRpm
  exact mem_le_listMaxNat _ _ (List.mem_map.mpr ⟨bucket, hmem, rfl⟩)

theorem bucket_count_eq (receipts : List Receipt) (bucket : Int) :
    (requestBuckets receipts).count bucket
      = (receipts.filter (fun r => r.eventType == "request"
          && r.timestamp.fdiv 60000 == bucket)).length := by
  unfold requestBuckets
  rw [List.count_eq_countP, List.countP_map, List.countP_filter,
    ← List.countP_eq_length_filter]
  congr 1
  funext a
  simp [Function.comp, Bool.and_comm]

/-- C8 amended: whenever the clause has the abuse rule
`requests_per_minute <= 60` and at least 61 request receipts share one aligned
60 000 ms bucket (equal `timestamp // 60000`), the reason codes include
`clause_violated:rate_limit` and the deterministic winner is the plaintiff. -/
theorem C8_rate_limit_bucket (clause : Clause) (receipts : List Receipt) (bucket : Int)
    (hrule : ∃ rule ∈ clause.abuseRules,
      rule.metric = "requests_per_minute" ∧ rule.operator = "<=" ∧ rule.value = 60)
    (hcount : 61 ≤ (receipts.filter (fun r => r.eventType == "request"
        && r.timestamp.fdiv 60000 == bucket)).length) :
    "clause_violated:rate_limit" ∈ (extract_facts clause receipts).2.1
    ∧ (extract_facts clause receipts).2.2 = some "plaintiff" := by
  obtain ⟨rule, hrmem, hmetric, hop, hval⟩ := hrule
  have hpeak : 61 ≤ peakRpm receipts := by
    have hc : 61 ≤ (requestBuckets receipts).count bucket := by
      rw [bucket_count_eq]; exact hcount
    have hbm : bucket ∈ requestBuckets receipts := by
      rw [← List.count_pos_iff]
      omega
    exact le_trans hc (count_le_peakRpm receipts bucket hbm)
  have hgt : ((peakRpm receipts : ℚ) > rule.value) := by
    rw [hval]
    have : (61 : ℚ) ≤ (peakRpm receipts : ℚ) := by exact_mod_cast hpeak
    linarith
  have hcode : "clause_violated:rate_limit" ∈ abuseReasonCodes clause (peakRpm receipts) := by
    unfold abuseReasonCodes
    refine List.mem_flatMap.mpr ⟨rule, hrmem, ?_⟩
    rw [if_pos (by simp [hmetric, hop, hgt])]
    exact List.mem_singleton.mpr rfl
  have hmemc : "clause_violated:rate_limit" ∈ (extract_facts clause receipts).2.1 := by
    rw [extract_facts_codes]
    exact List.mem_append_right _ hcode
  refine ⟨hmemc, ?_⟩
  rw [extract_facts_winner]
  rw [if_pos (List.ne_nil_of_mem hmemc)]

/-- The clause of scenario S4: abuse rule `requests_per_minute <= 60`. -/
def c8Clause : Clause :=
  { schemaVersion := "1.0.0", clauseId := "c8", chainId := 1,
    contractAddress := "0xc", agreementId := "agr", serviceScope := "A",
    slaRules := [],
    abuseRules := [{ ruleId := "a1", metric := "requests_per_minute",
                     operator := "<=", value := 60, unit := "count" }],
    disputeWindowSec := 30, evidenceWindowSec := 30, remedyRules := [],
    judgeFeePercent := 5, clauseHash := "H" }

/-- Request receipt number `i` with timestamp `ts`. -/
def c8Receipt (i : Nat) (ts : Int) : Receipt :=
  { schemaVersion := "1.0.0", receiptId := "r" ++ toString i, chainId := 1,
    contractAddress := "0xc", agreementId := "agr", clauseHash := "0xcl",
    sequence := (i : Int), eventType := "request", timestamp := ts,
    actorId := cexActor, counterpartyId := cexActor, requestId := "q" ++ toString i,
    payloadHash := "p", prevHash := "0x0", metadata := .obj [],
    receiptHash := "H", signature := cexAddr }

/-- Sixty-one request receipts whose timestamps 59999..60059 all lie inside one
sliding 60 000 ms window but straddle two aligned buckets (1 + 60). -/
def c8Receipts : List Receipt :=
  (List.range 61).map (fun i => c8Receipt i (59999 + (i : Int)))

set_option maxRecDepth 200000 in
/-- Counterexample for C8: 61 request receipts within one 60 000 ms window
(but straddling two aligned `timestamp // 60000` buckets) trigger no
`clause_violated:rate_limit` code, and the winner is not the plaintiff. -/
theorem C8_rate_limit_window_counterexample :
    ((c8Receipts.filter (fun r => r.eventType == "request")).length = 61)
    ∧ (∃ t0 : Int, ∀ r ∈ c8Receipts, t0 ≤ r.timestamp ∧ r.timestamp < t0 + 60000)
    ∧ ("clause_violated:rate_limit" ∉ (extract_facts c8Clause c8Receipts).2.1)
    ∧ ((extract_facts c8Clause c8Receipts).2.2 ≠ some "plaintiff") := by
  refine ⟨by decide, ⟨59999, by decide⟩, by decide, by decide⟩

set_option maxRecDepth 200000 in
/-- Witness for the amended C8: with the 61 straddling receipts shifted to a
single aligned bucket the rule fires and the plaintiff wins. -/
theorem C8_rate_limit_bucket_witness :
    ((∃ rule ∈ c8Clause.abuseRules,
        rule.metric = "requests_per_minute" ∧ rule.operator = "<=" ∧ rule.value = 60)
      ∧ 61 ≤ (((List.range 61).map (fun i => c8Receipt i 7)).filter
          (fun r => r.eventType == "request" && r.timestamp.fdiv 60000 == 0)).length)
    ∧ ("clause_violated:rate_limit"
        ∈ (extract_facts c8Clause ((List.range 61).map (fun i => c8Receipt i 7))).2.1
      ∧ (extract_facts c8Clause ((List.range 61).map (fun i => c8Receipt i 7))).2.2
          = some "plaintiff") := by
  refine ⟨⟨?_, by decide⟩, ?_⟩
  · exact ⟨_, List.mem_singleton.mpr rfl, rfl, rfl, rfl⟩
  · exact C8_rate_limit_bucket c8Clause _ 0
      ⟨_, List.mem_singleton.mpr rfl, rfl, rfl, rfl⟩ (by decide)

/-! ## The judge service: evidence re-verification (`verifier.py`), the
dispute decision (`server.py:_handle_dispute`) and ruling submission -/

/-- Function `verify_evidence_bundle` from `verifier.py`; `none` models an exception
from Merkle root computation. -/
def verify_evidence_bundle (keccakStr : String → String) (floatRepr : ℚ → String)
    (recover : String → String → Option String) (checksum : String → Option String)
    (keccakB : List Nat → List Nat) (receipts : List Receipt) (expected_root : String)
    (chain_id : Int) (contract_address agreement_id clause_hash : String) :
    Option (Bool × List String) :=
  let chain := verify_receipt_chain keccakStr floatRepr recover checksum receipts
    ⟨some chain_id, some contract_address, some agreement_id, some clause_hash⟩
  match merkle_root_hash keccakB ((sortBySeq receipts).map (fun r => r.receiptHash)) with
  | none => none
  | some computed_root =>
    let errors := chain.errors ++
      (if computed_root ≠ expected_root then
        ["anchor root mismatch expected=" ++ expected_root
          ++ " computed=" ++ computed_root]
      else [])
    some (errors.isEmpty, errors)

/-- The verdict fields the dispute handler decides: winner, reason codes,
confidence and flags. -/
structure VerdictCore where
  winner : String
  reasonCodes : List String
  confidence : ℚ
  flags : List String
deriving Repr, DecidableEq

/-- The decision block of `_handle_dispute` in `server.py`, from the bundle
verification outcome to the verdict core. `llm` is the abstract AI panel
(`llm_judge.judge`): it receives the clause, the facts, the receipt count, the
prior reason codes and the tier, and returns codes, an optional winner side, a
confidence and an opinion. -/
def judgeDecision
    (llm : Clause → Facts → Nat → List String → Nat →
      (List String × Option String × ℚ × String))
    (plaintiff defendant : String) (clause : Clause) (receipts : List Receipt)
    (dispute_tier : Nat) (ok : Bool) (errors : List String) : VerdictCore :=
  if ok = false then
    { winner := defendant, reasonCodes := ["hash_mismatch"],
      confidence := 99/100, flags := errors }
  else
    let fr := extract_facts clause receipts
    match fr.2.2 with
    | some "plaintiff" =>
      { winner := plaintiff, reasonCodes := fr.2.1, confidence := 95/100, flags := [] }
    | some "defendant" =>
      { winner := defendant, reasonCodes := fr.2.1, confidence := 95/100, flags := [] }
    | _ =>
      let lr := llm clause fr.1 receipts.length fr.2.1 dispute_tier
      { winner :=
          if lr.2.1 = some "plaintiff" then plaintiff
          else if lr.2.1 = some "defendant" then defendant
          else defendant,
        reasonCodes := fr.2.1 ++ lr.1,
        confidence := lr.2.2.1, flags := [] }

/-- Handler `_handle_dispute` from evidence verification to the produced verdict core;
`none` models an exception before any verdict is built. -/
def handleDisputeCore (keccakStr : String → String) (floatRepr : ℚ → String)
    (recover : String → String → Option String) (checksum : String → Option String)
    (keccakB : List Nat → List Nat)
    (llm : Clause → Facts → Nat → List String → Nat →
      (List String × Option String × ℚ × String))
    (plaintiff defendant agreement_id root_hash : String) (clause : Clause)
    (receipts : List Receipt) (dispute_tier : Nat) : Option VerdictCore :=
  match verify_evidence_bundle keccakStr floatRepr recover checksum keccakB
      receipts root_hash clause.chainId clause.contractAddress agreement_id
      clause.clauseHash with
  | none => none
  | some (ok, errors) =>
    some (judgeDecision llm plaintiff defendant clause receipts dispute_tier ok errors)

/-- C6: whenever re-verification fails — the chain check returns an error or
the recomputed Merkle root differs from the anchored root — the produced
verdict has reason codes containing "hash_mismatch", winner = defendant and
confidence = 0.99. -/
theorem C6_integrity_failure_verdict (keccakStr : String → String)
    (floatRepr : ℚ → String) (recover : String → String → Option String)
    (checksum : String → Option String) (keccakB : List Nat → List Nat)
    (llm : Clause → Facts → Nat → List String → Nat →
      (List String × Option String × ℚ × String))
    (plaintiff defendant agreement_id root_hash : String) (clause : Clause)
    (receipts : List Receipt) (dispute_tier : Nat) (computed : String)
    (hroot : merkle_root_hash keccakB ((sortBySeq receipts).map (fun r => r.receiptHash))
        = some computed)
    (hfail : (verify_receipt_chain keccakStr floatRepr recover checksum receipts
        ⟨some clause.chainId, some clause.contractAddress, some agreement_id,
          some clause.clauseHash⟩).errors ≠ [] ∨ computed ≠ root_hash) :
    ∃ core, handleDisputeCore keccakStr floatRepr recover checksum keccakB llm
        plaintiff defendant agreement_id root_hash clause receipts dispute_tier
          = some core
      ∧ "hash_mismatch" ∈ core.reasonCodes
      ∧ core.winner = defendant
      ∧ core.confidence = 99/100 := by
  unfold handleDisputeCore verify_evidence_bundle
  rw [hroot]
  have herrne : ((verify_receipt_chain keccakStr floatRepr recover checksum receipts
      ⟨some clause.chainId, some clause.contractAddress, some agreement_id,
        some clause.clauseHash⟩).errors ++
      (if computed ≠ root_hash then
        ["anchor root mismatch expected=" ++ root_hash ++ " computed=" ++ computed]
      else [])) ≠ [] := by
    cases hfail with
    | inl h =>
      intro hnil
      exact h (List.append_eq_nil.mp hnil).1
    | inr h =>
      rw [if_pos h]
      intro hnil
      have := (List.append_eq_nil.mp hnil).2
      cases this
  have hempty : ((verify_receipt_chain keccakStr floatRepr recover checksum receipts
      ⟨some clause.chainId, some clause.contractAddress, some agreement_id,
        some clause.clauseHash⟩).errors ++
      (if computed ≠ root_hash then
        ["anchor root mismatch expected=" ++ root_hash ++ " computed=" ++ computed]
      else [])).isEmpty = false := by
    rw [List.isEmpty_eq_false_iff_exists_mem]
    cases hl : ((verify_receipt_chain keccakStr floatRepr recover checksum receipts
        ⟨some clause.chainId, some clause.contractAddress, some agreement_id,
          some clause.clauseHash⟩).errors ++
        (if computed ≠ root_hash then
          ["anchor root mismatch expected=" ++ root_hash ++ " computed=" ++ computed]
        else [])) with
    | nil => exact absurd hl herrne
    | cons x xs => exact ⟨x, List.mem_cons_self _ _⟩
  simp only [hempty]
  refine ⟨_, rfl, ?_, ?_, ?_⟩
  · unfold judgeDecision
    simp
  · unfold judgeDecision
    simp
  · unfold judgeDecision
    simp

/-- Witness for C6: an empty receipt list against a non-matching anchored root
produces the defendant-wins hash_mismatch verdict. -/
theorem C6_integrity_failure_verdict_witness :
    (merkle_root_hash (fun x => x) (([] : List Receipt).map (fun r => r.receiptHash))
        = some "0x0" ∧ ("0x0" : String) ≠ "0x1")
    ∧ ∃ core, handleDisputeCore (fun _ => "H") (fun _ => "F") (fun _ sig => some sig)
        some (fun x => x) (fun _ _ _ _ _ => ([], none, 0, ""))
        "0xP" "0xD" "agr" "0x1" cexC1 [] 0 = some core
      ∧ "hash_mismatch" ∈ core.reasonCodes
      ∧ core.winner = "0xD"
      ∧ core.confidence = 99/100 := by
  refine ⟨⟨by rfl, by decide⟩, ?_⟩
  exact C6_integrity_failure_verdict (fun _ => "H") (fun _ => "F") (fun _ sig => some sig)
    some (fun x => x) (fun _ _ _ _ _ => ([], none, 0, ""))
    "0xP" "0xD" "agr" "0x1" cexC1 [] 0 "0x0" (by rfl) (Or.inr (by decide))

/-- Flag `authorized`: requires a judge address from the ABI, a configured signing
key, and the checksummed key address equal to the judge address. -/
def judgeAuthorized (checksum : String → Option String)
    (judgeAddr account : Option String) : Option Bool :=
  match judgeAddr, account with
  | some j, some a => if j ≠ "" then (checksum a).map (fun ca => ca == j) else some false
  | _, _ => some false

/-- The submission block at the end of `_handle_dispute`: decide between
on-chain submission and manual review. `judgeAddr` is `escrow.judge_address()`
(None when the ABI lacks `judge`), `account` is the configured signing key's
address, `dryRun` is the adapter's dry-run flag; `none` models an exception
from `to_checksum_address`. Returns the stored status, the final flags and
whether a ruling transaction was sent. -/
def submitDecision (checksum : String → Option String) (confidence : ℚ)
    (judgeAddr : Option String) (account : Option String) (dryRun : Bool)
    (flags : List String) : Option (String × List String × Bool) :=
  if (7 : ℚ)/10 ≤ confidence then
    match judgeAuthorized checksum judgeAddr account with
    | none => none
    | some authorized =>
      if authorized || dryRun then some ("submitted", flags, true)
      else some ("manual_review", flags ++ ["needs_manual_review"], false)
  else some ("manual_review", flags ++ ["needs_manual_review"], false)

/-- C7: a ruling is submitted on-chain iff confidence ≥ 0.70 and either the
adapter is dry-run or the signing key's address checksums to
`escrow.judgeAddress()`; in every other case no transaction is sent, the
status is "manual_review" and the flags contain "needs_manual_review". -/
theorem C7_submit_iff_authorized (checksum : String → Option String) (confidence : ℚ)
    (judgeAddr account : Option String) (dryRun : Bool) (flags : List String)
    (hj : judgeAddr ≠ some "")
    (hacct : ∀ a, account = some a → (checksum a).isSome = true) :
    ∃ status flags2 submitted,
      submitDecision checksum confidence judgeAddr account dryRun flags
        = some (status, flags2, submitted)
      ∧ (submitted = true ↔ ((7 : ℚ)/10 ≤ confidence ∧ (dryRun = true
          ∨ ∃ j a, judgeAddr = some j ∧ account = some a ∧ checksum a = some j)))
      ∧ (submitted = false → status = "manual_review" ∧ "needs_manual_review" ∈ flags2)
      ∧ (submitted = true → status = "submitted" ∧ flags2 = flags) := by
  have hmanual : ∀ st fl, (st, fl, false) = ("manual_review", flags ++ ["needs_manual_review"], false) →
      (false = true ↔ ((7 : ℚ)/10 ≤ confidence ∧ (dryRun = true
          ∨ ∃ j a, judgeAddr = some j ∧ account = some a ∧ checksum a = some j))) →
      True := fun _ _ _ _ => trivial
  clear hmanual
  unfold submitDecision
  by_cases hc : (7 : ℚ)/10 ≤ confidence
  · rw [if_pos hc]
    cases judgeAddr with
    | none =>
      have hnoauth : ∀ P : Prop, (∃ j a, (none : Option String) = some j
          ∧ account = some a ∧ checksum a = some j) → P := by
        rintro P ⟨j, a, hj2, _⟩; cases hj2
      cases account with
      | none =>
        cases dryRun with
        | true =>
          refine ⟨_, _, _, rfl, ?_, ?_, ?_⟩
          · simp [hc]
          · intro h; cases h
          · intro _; exact ⟨rfl, rfl⟩
        | false =>
          refine ⟨_, _, _, rfl, ?_, ?_, ?_⟩
          · constructor
            · intro h; cases h
            · rintro ⟨_, h | hex⟩
              · cases h
              · exact hnoauth _ hex
          · intro _; exact ⟨rfl, List.mem_append_right _ (List.mem_singleton.mpr rfl)⟩
          · intro h; cases h
      | some a =>
        cases dryRun with
        | true =>
          refine ⟨_, _, _, rfl, ?_, ?_, ?_⟩
          · simp [hc]
          · intro h; cases h
          · intro _; exact ⟨rfl, rfl⟩
        | false =>
          refine ⟨_, _, _, rfl, ?_, ?_, ?_⟩
          · constructor
            · intro h; cases h
            · rintro ⟨_, h | hex⟩
              · cases h
              · exact hnoauth _ hex
          · intro _; exact ⟨rfl, List.mem_append_right _ (List.mem_singleton.mpr rfl)⟩
          · intro h; cases h
    | some j =>
      have hjne : j ≠ "" := fun h => hj (by rw [h])
      cases account with
      | none =>
        have hnoauth : ∀ P : Prop, (∃ j2 a, (some j : Option String) = some j2
            ∧ (none : Option String) = some a ∧ checksum a = some j2) → P := by
          rintro P ⟨j2, a, _, ha, _⟩; cases ha
        cases dryRun with
        | true =>
          refine ⟨_, _, _, rfl, ?_, ?_, ?_⟩
          · simp [hc]
          · intro h; cases h
          · intro _; exact ⟨rfl, rfl⟩
        | false =>
          refine ⟨_, _, _, rfl, ?_, ?_, ?_⟩
          · constructor
            · intro h; cases h
            · rintro ⟨_, h | hex⟩
              · cases h
              · exact hnoauth _ hex
          · intro _; exact ⟨rfl, List.mem_append_right _ (List.mem_singleton.mpr rfl)⟩
          · intro h; cases h
      | some a =>
        obtain ⟨ca, hca⟩ := Option.isSome_iff_exists.mp (hacct a rfl)
        have hauth : judgeAuthorized checksum (some j) (some a) = some (ca == j) := by
          show (if j ≠ "" then (checksum a).map (fun ca => ca == j) else some false)
              = some (ca == j)
          rw [if_pos hjne, hca]
          rfl
        rw [hauth]
        by_cases hbeq : ca = j
        · have hbeqb : (ca == j) = true := beq_iff_eq.mpr hbeq
          rw [hbeqb]
          refine ⟨_, _, _, rfl, ?_, ?_, ?_⟩
          · constructor
            · intro _
              exact ⟨hc, Or.inr ⟨j, a, rfl, rfl, by rw [hca, hbeq]⟩⟩
            · intro _; rfl
          · intro h; cases h
          · intro _; exact ⟨rfl, rfl⟩
        · have hbeqb : (ca == j) = false := beq_eq_false_iff_ne.mpr hbeq
          rw [hbeqb]
          cases dryRun with
          | true =>
            refine ⟨_, _, _, rfl, ?_, ?_, ?_⟩
            · simp [hc]
            · intro h; cases h
            · intro _; exact ⟨rfl, rfl⟩
          | false =>
            refine ⟨_, _, _, rfl, ?_, ?_, ?_⟩
            · constructor
              · intro h; cases h
              · rintro ⟨_, h | ⟨j2, a2, hj2, ha2, hcs2⟩⟩
                · cases h
                · have hjj : j2 = j := (Option.some.inj hj2).symm
                  have haa : a2 = a := (Option.some.inj ha2).symm
                  rw [hjj, haa, hca] at hcs2
                  exact absurd (Option.some.inj hcs2) hbeq
            · intro _; exact ⟨rfl, List.mem_append_right _ (List.mem_singleton.mpr rfl)⟩
            · intro h; cases h
  · rw [if_neg hc]
    refine ⟨_, _, _, rfl, ?_, ?_, ?_⟩
    · constructor
      · intro h; cases h
      · intro h; exact absurd h.1 hc
    · intro _
      exact ⟨rfl, List.mem_append_right _ (List.mem_singleton.mpr rfl)⟩
    · intro h; cases h

/-- Witness for C7: with confidence 1 and a dry-run adapter the ruling is
submitted; the hypotheses hold for the identity checksum. -/
theorem C7_submit_iff_authorized_witness :
    ((none : Option String) ≠ some "")
    ∧ (∃ status flags2 submitted,
        submitDecision (fun s => some s) 1 none none true []
          = some (status, flags2, submitted)
        ∧ (submitted = true ↔ ((7 : ℚ)/10 ≤ 1 ∧ ((true : Bool) = true
            ∨ ∃ j a, (none : Option String) = some j
              ∧ (none : Option String) = some a ∧ some a = some j)))
        ∧ (submitted = false → status = "manual_review" ∧ "needs_manual_review" ∈ flags2)
        ∧ (submitted = true → status = "submitted" ∧ flags2 = ([] : List String))) := by
  refine ⟨by simp, ?_⟩
  exact C7_submit_iff_authorized (fun s => some s) 1 none none true []
    (by simp) (fun a h => by cases h)

/-! ## The reputation service (`scorer.py`, `storage.py`, `watcher.py`) -/

structure ScoreEvent where
  actorId : String
  delta : Int
  reason : String
  eventKey : String
deriving Repr, DecidableEq

/-- The reputation store: the `agent_scores` table (actor → score, PK actor)
and the `score_events` table (with its UNIQUE `event_key`). -/
structure RepState where
  scores : List (String × Int)
  events : List ScoreEvent
deriving Repr, DecidableEq

/-- The `SCORES` table of `scorer.py`. -/
def SCORES_completed_without_dispute : Int := 1

def SCORES_won_dispute : Int := 2

def SCORES_lost_dispute : Int := -5

def SCORES_lost_as_filer : Int := -3

/-- Function `to_did` from `scorer.py`. -/
def to_did (address : String) : String :=
  if startsWithChars ("did:8004:".data) address.data then address
  else "did:8004:" ++ address

/-- Method `_ensure_actor`: `INSERT OR IGNORE` of the actor at score 100. -/
def ensure_actor (st : RepState) (actorId : String) : RepState :=
  if st.scores.any (fun p => p.1 == actorId) then st
  else { st with scores := st.scores ++ [(actorId, 100)] }

/-- Method `apply_event` from `storage.py`: ensure the actor row, reject a duplicate
`event_key` (IntegrityError → False), otherwise record the event and add the
delta to the actor's score. -/
def apply_event (st : RepState) (actorId : String) (delta : Int)
    (reason eventKey : String) : RepState × Bool :=
  let st1 := ensure_actor st actorId
  if st1.events.any (fun e => e.eventKey == eventKey) then (st1, false)
  else
    ({ scores := st1.scores.map (fun p => if p.1 == actorId then (p.1, p.2 + delta) else p),
       events := st1.events ++ [⟨actorId, delta, reason, eventKey⟩] }, true)

/-- The score `get_reputation` reports: the stored row, or the 100 that
`_ensure_actor` would materialize on first reference. -/
def scoreView (st : RepState) (actorId : String) : Int :=
  (((st.scores.find? (fun p => p.1 == actorId)).map (fun p => p.2)).getD 100)

/-- The `RulingSubmitted` winner branch of `watcher.poll_once`. -/
def applyRulingWin (st : RepState) (disputeId : Int) (winner : String) :
    RepState × Bool :=
  apply_event st (to_did winner) SCORES_won_dispute "won_dispute"
    ("ruling-win-" ++ toString disputeId ++ "-" ++ winner)

theorem ensure_actor_events (st : RepState) (a : String) :
    (ensure_actor st a).events = st.events := by
  unfold ensure_actor
  split <;> rfl

theorem scoreView_ensure (st : RepState) (a b : String) :
    scoreView (ensure_actor st a) b = scoreView st b := by
  unfold ensure_actor scoreView
  split
  · rfl
  · next hany =>
    simp only [List.find?_append]
    cases hf : st.scores.find? (fun p => p.1 == b) with
    | some q => simp
    | none =>
      simp only [Option.none_or]
      by_cases hab : (a == b) = true
      · have : b = a := (eq_of_beq hab).symm
        subst this
        simp [List.find?]
      · have hab' : (a == b) = false := Bool.eq_false_iff.mpr hab
        simp [List.find?, hab']

theorem ensure_actor_present (st : RepState) (a : String) :
    ((ensure_actor st a).scores.any (fun p => p.1 == a)) = true := by
  unfold ensure_actor
  split
  · next h => exact h
  · simp

theorem find_bump (a : String) (delta : Int) :
    ∀ l : List (String × Int), l.any (fun p => p.1 == a) = true →
      (((l.map (fun p => if p.1 == a then (p.1, p.2 + delta) else p)).find?
          (fun p => p.1 == a)).map (fun p => p.2)).getD 100
        = ((l.find? (fun p => p.1 == a)).map (fun p => p.2)).getD 100 + delta := by
  intro l
  induction l with
  | nil => intro h; simp at h
  | cons q l ih =>
    intro h
    by_cases hq : (q.1 == a) = true
    · simp only [List.map_cons, hq, if_true, if_pos]
      rw [@List.find?_cons_of_pos _ (fun p => p.1 == a) (q.1, q.2 + delta) _ hq,
        @List.find?_cons_of_pos _ (fun p => p.1 == a) q _ hq]
      simp
    · have hq' : (q.1 == a) = false := by
        rw [Bool.eq_false_iff]; exact hq
      simp only [List.map_cons, hq', if_false, Bool.false_eq_true, if_neg]
      rw [@List.find?_cons_of_neg _ (fun p => p.1 == a) q _ (by simp [hq']),
        @List.find?_cons_of_neg _ (fun p => p.1 == a) q _ (by simp [hq'])]
      apply ih
      simpa [hq'] using h

/-- C9: an actor's score initializes to 100 on first reference; applying a
score event whose event_key already exists is silently ignored (no score or
history change); and delivering the same RulingSubmitted win event twice
changes the winner's score by exactly +2, not +4. -/
theorem C9_reputation_idempotent :
    (∀ (st : RepState) (a : String), (st.scores.any (fun p => p.1 == a)) = false →
        scoreView (ensure_actor st a) a = 100)
    ∧ (∀ (st : RepState) (a : String) (delta : Int) (reason eventKey : String),
        (st.events.any (fun e => e.eventKey == eventKey)) = true →
        (apply_event st a delta reason eventKey).2 = false
        ∧ (apply_event st a delta reason eventKey).1.events = st.events
        ∧ ∀ b, scoreView (apply_event st a delta reason eventKey).1 b = scoreView st b)
    ∧ (∀ (st : RepState) (disputeId : Int) (winner : String),
        (st.events.any (fun e => e.eventKey ==
            ("ruling-win-" ++ toString disputeId ++ "-" ++ winner))) = false →
        scoreView (applyRulingWin (applyRulingWin st disputeId winner).1 disputeId winner).1
            (to_did winner)
          = scoreView st (to_did winner) + 2
        ∧ (applyRulingWin (applyRulingWin st disputeId winner).1 disputeId winner).2 = false) := by
  have hdup : ∀ (st : RepState) (a : String) (delta : Int) (reason eventKey : String),
      (st.events.any (fun e => e.eventKey == eventKey)) = true →
      (apply_event st a delta reason eventKey).2 = false
      ∧ (apply_event st a delta reason eventKey).1.events = st.events
      ∧ ∀ b, scoreView (apply_event st a delta reason eventKey).1 b = scoreView st b := by
    intro st a delta reason eventKey hkey
    have hkey1 : ((ensure_actor st a).events.any (fun e => e.eventKey == eventKey)) = true := by
      rw [ensure_actor_events]; exact hkey
    unfold apply_event
    rw [if_pos hkey1]
    exact ⟨rfl, ensure_actor_events st a, fun b => scoreView_ensure st a b⟩
  have happly : ∀ (st : RepState) (a : String) (delta : Int) (reason eventKey : String),
      (st.events.any (fun e => e.eventKey == eventKey)) = false →
      (apply_event st a delta reason eventKey).2 = true
      ∧ (apply_event st a delta reason eventKey).1.events
          = st.events ++ [⟨a, delta, reason, eventKey⟩]
      ∧ scoreView (apply_event st a delta reason eventKey).1 a = scoreView st a + delta := by
    intro st a delta reason eventKey hkey
    have hkey1 : ((ensure_actor st a).events.any (fun e => e.eventKey == eventKey)) = false := by
      rw [ensure_actor_events]; exact hkey
    unfold apply_event
    rw [if_neg (by rw [hkey1]; exact Bool.false_ne_true)]
    refine ⟨rfl, by rw [ensure_actor_events], ?_⟩
    show (((((ensure_actor st a).scores.map
        (fun p => if p.1 == a then (p.1, p.2 + delta) else p)).find?
          (fun p => p.1 == a)).map (fun p => p.2)).getD 100) = scoreView st a + delta
    rw [find_bump a delta _ (ensure_actor_present st a)]
    have := scoreView_ensure st a a
    unfold scoreView at this
    rw [this]
    rfl
  refine ⟨?_, hdup, ?_⟩
  · intro st a hfresh
    rw [scoreView_ensure]
    unfold scoreView
    rw [List.find?_eq_none.mpr ?_]
    · rfl
    · intro x hx
      have := (List.any_eq_false.mp hfresh) x hx
      simpa using this
  · intro st disputeId winner hkey
    have h1 := happly st (to_did winner) SCORES_won_dispute "won_dispute"
      ("ruling-win-" ++ toString disputeId ++ "-" ++ winner) hkey
    have hkey2 : ((applyRulingWin st disputeId winner).1.events.any
        (fun e => e.eventKey == ("ruling-win-" ++ toString disputeId ++ "-" ++ winner)))
          = true := by
      unfold applyRulingWin
      rw [h1.2.1]
      rw [List.any_append]
      simp [List.any]
    have h2 := hdup (applyRulingWin st disputeId winner).1 (to_did winner)
      SCORES_won_dispute "won_dispute"
      ("ruling-win-" ++ toString disputeId ++ "-" ++ winner) hkey2
    constructor
    · show scoreView (apply_event (applyRulingWin st disputeId winner).1 (to_did winner)
          SCORES_won_dispute "won_dispute"
          ("ruling-win-" ++ toString disputeId ++ "-" ++ winner)).1 (to_did winner)
        = scoreView st (to_did winner) + 2
      rw [h2.2.2 (to_did winner)]
      show scoreView (applyRulingWin st disputeId winner).1 (to_did winner)
        = scoreView st (to_did winner) + 2
      unfold applyRulingWin
      exact h1.2.2
    · exact h2.1

/-- Witness for C9: from the empty store, a fresh actor reads 100, and the
same win event delivered twice yields exactly +2. -/
theorem C9_reputation_idempotent_witness :
    ((((⟨[], []⟩ : RepState)).scores.any (fun p => p.1 == "x") = false)
      ∧ scoreView (ensure_actor ⟨[], []⟩ "x") "x" = 100)
    ∧ (((⟨[], []⟩ : RepState)).events.any
        (fun e => e.eventKey == ("ruling-win-" ++ toString (1 : Int) ++ "-" ++ "0xW")) = false
      ∧ scoreView (applyRulingWin (applyRulingWin ⟨[], []⟩ 1 "0xW").1 1 "0xW").1
          (to_did "0xW") = scoreView (⟨[], []⟩ : RepState) (to_did "0xW") + 2
      ∧ (applyRulingWin (applyRulingWin ⟨[], []⟩ 1 "0xW").1 1 "0xW").2 = false) := by
  refine ⟨⟨by decide, ?_⟩, ⟨by decide, ?_, ?_⟩⟩
  · exact C9_reputation_idempotent.1 ⟨[], []⟩ "x" (by decide)
  · exact (C9_reputation_idempotent.2.2 ⟨[], []⟩ 1 "0xW" (by decide)).1
  · exact (C9_reputation_idempotent.2.2 ⟨[], []⟩ 1 "0xW" (by decide)).2

end VerdictProtocol
